import Mathlib

/-!
Verification of the deferred-value ("promise polyfill") core.

The definitions below are a shallow embedding of the promise polyfill
source (`babylon.promise.ts`): a heap of promise nodes, the internal
`_resolve` / `_reject` settlement routines, `_moveChildren`, `then`,
`catch`, the constructor with a resolver callback, the static `resolve`
and `all` combinators, and the `value()` / `reason()` accessors.

Mutation is modelled by explicit heap passing; the object graph of
`InternalPromise` instances becomes a list of `Node` records addressed by
index.  Continuation callbacks are modelled by a small syntax
(`OnFulfilled` / `OnRejected`) covering the callback shapes exercised by
the source: plain-value returns, returns of a further promise (including
a freshly created `resolve(v)` promise), raising callbacks, and the two
internal callbacks registered by `_RegisterForFulfillment`.  Exceptions
are modelled by the `Res` result type; recursion through the children
graph is modelled by an explicit fuel argument (`Res.fuelOut` signals
exhaustion; all theorems supply enough fuel for that case never to
arise).
-/

namespace BabylonPromise

/-- `PromiseStates` from the source: Pending, Fulfilled, Rejected. -/
inductive PromiseStates where
  | Pending
  | Fulfilled
  | Rejected
deriving DecidableEq

/-- JavaScript values flowing through the polyfill: `undefined`, `null`,
numbers, strings, arrays (used for the `all` result), and promise object
references (a promise returned from an `onFulfilled` callback). -/
inductive Val where
  | vundef
  | vnull
  | vnum (n : Int)
  | vstr (s : String)
  | varr (xs : List Val)
  | vpromise (id : Nat)

mutual

def valDecEq : (a b : Val) → Decidable (a = b)
  | .vundef, .vundef => isTrue rfl
  | .vnull, .vnull => isTrue rfl
  | .vnum a, .vnum b =>
    match decEq a b with
    | isTrue h => isTrue (by rw [h])
    | isFalse h => isFalse (fun he => h (Val.vnum.inj he))
  | .vstr a, .vstr b =>
    match decEq a b with
    | isTrue h => isTrue (by rw [h])
    | isFalse h => isFalse (fun he => h (Val.vstr.inj he))
  | .varr xs, .varr ys =>
    match valListDecEq xs ys with
    | isTrue h => isTrue (by rw [h])
    | isFalse h => isFalse (fun he => h (Val.varr.inj he))
  | .vpromise a, .vpromise b =>
    match decEq a b with
    | isTrue h => isTrue (by rw [h])
    | isFalse h => isFalse (fun he => h (Val.vpromise.inj he))
  | .vundef, .vnull => isFalse (fun h => Val.noConfusion h)
  | .vundef, .vnum _ => isFalse (fun h => Val.noConfusion h)
  | .vundef, .vstr _ => isFalse (fun h => Val.noConfusion h)
  | .vundef, .varr _ => isFalse (fun h => Val.noConfusion h)
  | .vundef, .vpromise _ => isFalse (fun h => Val.noConfusion h)
  | .vnull, .vundef => isFalse (fun h => Val.noConfusion h)
  | .vnull, .vnum _ => isFalse (fun h => Val.noConfusion h)
  | .vnull, .vstr _ => isFalse (fun h => Val.noConfusion h)
  | .vnull, .varr _ => isFalse (fun h => Val.noConfusion h)
  | .vnull, .vpromise _ => isFalse (fun h => Val.noConfusion h)
  | .vnum _, .vundef => isFalse (fun h => Val.noConfusion h)
  | .vnum _, .vnull => isFalse (fun h => Val.noConfusion h)
  | .vnum _, .vstr _ => isFalse (fun h => Val.noConfusion h)
  | .vnum _, .varr _ => isFalse (fun h => Val.noConfusion h)
  | .vnum _, .vpromise _ => isFalse (fun h => Val.noConfusion h)
  | .vstr _, .vundef => isFalse (fun h => Val.noConfusion h)
  | .vstr _, .vnull => isFalse (fun h => Val.noConfusion h)
  | .vstr _, .vnum _ => isFalse (fun h => Val.noConfusion h)
  | .vstr _, .varr _ => isFalse (fun h => Val.noConfusion h)
  | .vstr _, .vpromise _ => isFalse (fun h => Val.noConfusion h)
  | .varr _, .vundef => isFalse (fun h => Val.noConfusion h)
  | .varr _, .vnull => isFalse (fun h => Val.noConfusion h)
  | .varr _, .vnum _ => isFalse (fun h => Val.noConfusion h)
  | .varr _, .vstr _ => isFalse (fun h => Val.noConfusion h)
  | .varr _, .vpromise _ => isFalse (fun h => Val.noConfusion h)
  | .vpromise _, .vundef => isFalse (fun h => Val.noConfusion h)
  | .vpromise _, .vnull => isFalse (fun h => Val.noConfusion h)
  | .vpromise _, .vnum _ => isFalse (fun h => Val.noConfusion h)
  | .vpromise _, .vstr _ => isFalse (fun h => Val.noConfusion h)
  | .vpromise _, .varr _ => isFalse (fun h => Val.noConfusion h)

def valListDecEq : (xs ys : List Val) → Decidable (xs = ys)
  | [], [] => isTrue rfl
  | [], _ :: _ => isFalse (fun h => List.noConfusion h)
  | _ :: _, [] => isFalse (fun h => List.noConfusion h)
  | x :: xs, y :: ys =>
    match valDecEq x y, valListDecEq xs ys with
    | isTrue h1, isTrue h2 => isTrue (by rw [h1, h2])
    | isFalse h1, _ => isFalse (fun he => h1 (List.cons.injEq x xs y ys ▸ he).1)
    | isTrue _, isFalse h2 => isFalse (fun he => h2 (List.cons.injEq x xs y ys ▸ he).2)

end

instance : DecidableEq Val := valDecEq

instance {ε α : Type} [DecidableEq ε] [DecidableEq α] : DecidableEq (Except ε α)
  | .ok a, .ok b =>
    match decEq a b with
    | isTrue h => isTrue (by rw [h])
    | isFalse h => isFalse (fun he => h (Except.ok.inj he))
  | .error a, .error b =>
    match decEq a b with
    | isTrue h => isTrue (by rw [h])
    | isFalse h => isFalse (fun he => h (Except.error.inj he))
  | .ok _, .error _ => isFalse (fun h => Except.noConfusion h)
  | .error _, .ok _ => isFalse (fun h => Except.noConfusion h)

/-- Shapes of `onFulfilled` callbacks occurring in the source and its
usage: returning `null`, returning a plain value, returning an existing
promise, returning a freshly created `InternalPromise.resolve(v)`
(allocates a node and drives it through `_resolve`), raising an error
with a message, and the fulfillment callback installed by
`_RegisterForFulfillment` (closing over an aggregator id and an index). -/
inductive OnFulfilled where
  | retNull
  | retValue (v : Val)
  | retPromise (id : Nat)
  | retStaticResolve (v : Val)
  | throws (msg : String)
  | aggregate (aggId : Nat) (index : Nat)
deriving DecidableEq

/-- Shapes of `onRejected` callbacks: an ordinary handler with no effect
on the model state (`consume`), a raising handler, and the rejection
callback installed by `_RegisterForFulfillment`. -/
inductive OnRejected where
  | consume
  | throws (msg : String)
  | aggregateReject (aggId : Nat)
deriving DecidableEq

/-- One `InternalPromise` object: `_state`, `_result`, `_reason`,
`_children` (node ids), `_onFulfilled`, `_onRejected`,
`_rejectWasConsumed`.  Field defaults mirror a freshly constructed
instance. -/
structure Node where
  state : PromiseStates := .Pending
  result : Val := .vundef
  reason : Val := .vundef
  children : List Nat := []
  onFulfilled : Option OnFulfilled := none
  onRejected : Option OnRejected := none
  rejectWasConsumed : Bool := false
deriving DecidableEq

/-- `FulFillmentAgregator` from the source: completion count, target,
the root promise's node id, and the (sparse) results array, modelled as
a list of `Option Val` where `none` is a hole (`undefined`). -/
structure Agregator where
  count : Nat := 0
  target : Nat := 0
  rootPromise : Nat := 0
  results : List (Option Val) := []
deriving DecidableEq

/-- The mutable object store: promise nodes and aggregators, addressed
by index. -/
structure Heap where
  nodes : List Node := []
  aggs : List Agregator := []
deriving DecidableEq

/-- Outcome of running a piece of the polyfill: normal completion with a
value, a propagating JavaScript exception carrying its message, or fuel
exhaustion of the model (never hit in the theorems below). -/
inductive Res (α : Type) where
  | ok (a : α)
  | thrown (msg : String)
  | fuelOut
deriving DecidableEq

def getNode (h : Heap) (id : Nat) : Node := h.nodes.getD id {}

def setNode (h : Heap) (id : Nat) (n : Node) : Heap :=
  { h with nodes := h.nodes.set id n }

def getAgg (h : Heap) (id : Nat) : Agregator := h.aggs.getD id {}

def setAgg (h : Heap) (id : Nat) (a : Agregator) : Heap :=
  { h with aggs := h.aggs.set id a }

/-- JavaScript sparse-array assignment `results[index] = value`: in-range
assignment overwrites, out-of-range assignment pads with holes
(`undefined`) and grows the array to `index + 1`. -/
def setAt (l : List (Option Val)) (i : Nat) (v : Val) : List (Option Val) :=
  if i < l.length then l.set i (some v)
  else l ++ List.replicate (i - l.length) none ++ [some v]

/-- Read `results[i]`; a hole or out-of-range read gives `undefined`. -/
def getAt (l : List (Option Val)) (i : Nat) : Option Val := l.getD i none

/-- The value of a JS array when passed around: holes read as
`undefined`. -/
def arrOf (l : List (Option Val)) : Val := .varr (l.map (fun o => o.getD .vundef))

/-- `x !== undefined && x !== null`. -/
def notNullUndef : Val → Bool
  | .vundef => false
  | .vnull => false
  | _ => true

/-- The source's duck-typing check `returnedValue._state !== undefined`:
true exactly for promise objects. -/
def isPromiseVal : Val → Bool
  | .vpromise _ => true
  | _ => false

mutual

/-- `InternalPromise._resolve(value)`: sets the node Fulfilled with
`value`, invokes `_onFulfilled` when present, splices its children into
a promise returned from the callback via `_moveChildren`, fans out
`value` to the (remaining) children, and returns the callback's return
value; any exception inside is caught and turned into
`this._reject(e.message)` followed by `return null`. -/
def resolveN : Nat → Heap → Nat → Val → Heap × Res Val
  | 0, h, _, _ => (h, .fuelOut)
  | fuel + 1, h, id, value =>
    let n := getNode h id
    let h1 := setNode h id { n with state := .Fulfilled, result := value }
    match (match n.onFulfilled with
           | some f => callOnFulfilled fuel h1 f value
           | none => (h1, Res.ok Val.vnull)) with
    | (h2, Res.ok returnedValue) =>
      match (match returnedValue, notNullUndef returnedValue with
             | Val.vpromise rid, true => moveChildrenN fuel h2 rid id
             | _, _ => (h2, Res.ok ())) with
      | (h3, Res.ok _) =>
        match resolveList fuel h3 ((getNode h3 id).children) value with
        | (h4, Res.ok _) => (h4, Res.ok returnedValue)
        | (h4, Res.thrown m) => rejectCatch fuel h4 id m
        | (h4, Res.fuelOut) => (h4, Res.fuelOut)
      | (h3, Res.thrown m) => rejectCatch fuel h3 id m
      | (h3, Res.fuelOut) => (h3, Res.fuelOut)
    | (h2, Res.thrown m) => rejectCatch fuel h2 id m
    | (h2, Res.fuelOut) => (h2, Res.fuelOut)
termination_by structural fuel _ _ _ => fuel

/-- The `catch(e)` arm of `_resolve`: `this._reject(e.message)` and then
`return null`; an exception raised by `_reject` itself propagates. -/
def rejectCatch : Nat → Heap → Nat → String → Heap × Res Val
  | 0, h, _, _ => (h, .fuelOut)
  | fuel + 1, h, id, m =>
    match rejectN fuel h id (Val.vstr m) with
    | (h', Res.ok _) => (h', Res.ok Val.vnull)
    | (h', Res.thrown m') => (h', Res.thrown m')
    | (h', Res.fuelOut) => (h', Res.fuelOut)
termination_by structural fuel _ _ _ => fuel

/-- `InternalPromise._reject(reason)`: sets the node Rejected with
`reason`, invokes `_onRejected` when present and then marks
`_rejectWasConsumed`, and fans out to the children - resolving each with
`null` when the rejection was consumed, rejecting it with `reason`
otherwise.  There is no surrounding try/catch: a raising handler
propagates. -/
def rejectN : Nat → Heap → Nat → Val → Heap × Res Unit
  | 0, h, _, _ => (h, .fuelOut)
  | fuel + 1, h, id, reason =>
    let n := getNode h id
    let h1 := setNode h id { n with state := .Rejected, reason := reason }
    match (match n.onRejected with
           | some r => callOnRejected fuel h1 r reason
           | none => (h1, Res.ok ())) with
    | (h2, Res.ok _) =>
      let h3 := if n.onRejected.isSome then
          setNode h2 id { getNode h2 id with rejectWasConsumed := true }
        else h2
      rejectFanout fuel h3 ((getNode h3 id).children) id reason
    | (h2, Res.thrown m) => (h2, Res.thrown m)
    | (h2, Res.fuelOut) => (h2, Res.fuelOut)
termination_by structural fuel _ _ _ => fuel

/-- The fan-out loop of `_resolve` (and the fulfilled branch of
`_moveChildren`): `for child of children: child._resolve(value)`. -/
def resolveList : Nat → Heap → List Nat → Val → Heap × Res Unit
  | 0, h, _, _ => (h, .fuelOut)
  | _ + 1, h, [], _ => (h, Res.ok ())
  | fuel + 1, h, c :: cs, value =>
    match resolveN fuel h c value with
    | (h', Res.ok _) => resolveList fuel h' cs value
    | (h', Res.thrown m) => (h', Res.thrown m)
    | (h', Res.fuelOut) => (h', Res.fuelOut)
termination_by structural fuel _ _ _ => fuel

/-- The rejected branch of `_moveChildren`: `for child of children:
child._reject(reason)`. -/
def rejectList : Nat → Heap → List Nat → Val → Heap × Res Unit
  | 0, h, _, _ => (h, .fuelOut)
  | _ + 1, h, [], _ => (h, Res.ok ())
  | fuel + 1, h, c :: cs, reason =>
    match rejectN fuel h c reason with
    | (h', Res.ok _) => rejectList fuel h' cs reason
    | (h', Res.thrown m) => (h', Res.thrown m)
    | (h', Res.fuelOut) => (h', Res.fuelOut)
termination_by structural fuel _ _ _ => fuel

/-- The fan-out loop of `_reject`: per iteration it re-reads
`this._rejectWasConsumed` and either resolves the child with `null` or
rejects it with `reason`. -/
def rejectFanout : Nat → Heap → List Nat → Nat → Val → Heap × Res Unit
  | 0, h, _, _, _ => (h, .fuelOut)
  | _ + 1, h, [], _, _ => (h, Res.ok ())
  | fuel + 1, h, c :: cs, id, reason =>
    if (getNode h id).rejectWasConsumed then
      match resolveN fuel h c Val.vnull with
      | (h', Res.ok _) => rejectFanout fuel h' cs id reason
      | (h', Res.thrown m) => (h', Res.thrown m)
      | (h', Res.fuelOut) => (h', Res.fuelOut)
    else
      match rejectN fuel h c reason with
      | (h', Res.ok _) => rejectFanout fuel h' cs id reason
      | (h', Res.thrown m) => (h', Res.thrown m)
      | (h', Res.fuelOut) => (h', Res.fuelOut)
termination_by structural fuel _ _ _ _ => fuel

/-- `InternalPromise._moveChildren(children)`: splices the source node's
children array (emptying it) into this node's `_children`, then - if
this node is already settled - immediately resolves or rejects each
moved child from this node's own state. -/
def moveChildrenN : Nat → Heap → Nat → Nat → Heap × Res Unit
  | 0, h, _, _ => (h, .fuelOut)
  | fuel + 1, h, rid, srcId =>
    let moved := (getNode h srcId).children
    let h1 := setNode h srcId { getNode h srcId with children := [] }
    let h2 := setNode h1 rid { getNode h1 rid with children := moved }
    let rn := getNode h2 rid
    if rn.state = .Fulfilled then resolveList fuel h2 moved rn.result
    else if rn.state = .Rejected then rejectList fuel h2 moved rn.reason
    else (h2, Res.ok ())
termination_by structural fuel _ _ _ => fuel

/-- Run an `onFulfilled` callback with the fulfillment value. -/
def callOnFulfilled : Nat → Heap → OnFulfilled → Val → Heap × Res Val
  | 0, h, _, _ => (h, .fuelOut)
  | fuel + 1, h, f, value =>
    match f with
    | .retNull => (h, Res.ok Val.vnull)
    | .retValue v => (h, Res.ok v)
    | .retPromise pid => (h, Res.ok (Val.vpromise pid))
    | .retStaticResolve v =>
      let nid := h.nodes.length
      let h1 : Heap := { h with nodes := h.nodes ++ [{}] }
      match resolveN fuel h1 nid v with
      | (h2, Res.ok _) => (h2, Res.ok (Val.vpromise nid))
      | (h2, Res.thrown m) => (h2, Res.thrown m)
      | (h2, Res.fuelOut) => (h2, Res.fuelOut)
    | .throws msg => (h, Res.thrown msg)
    | .aggregate aggId index =>
      let a := getAgg h aggId
      let a2 := { a with results := setAt a.results index value, count := a.count + 1 }
      let h1 := setAgg h aggId a2
      if a2.count = a2.target then
        match resolveN fuel h1 a2.rootPromise (arrOf a2.results) with
        | (h2, Res.ok _) => (h2, Res.ok Val.vnull)
        | (h2, Res.thrown m) => (h2, Res.thrown m)
        | (h2, Res.fuelOut) => (h2, Res.fuelOut)
      else (h1, Res.ok Val.vnull)
termination_by structural fuel _ _ _ => fuel

/-- Run an `onRejected` callback with the rejection reason. -/
def callOnRejected : Nat → Heap → OnRejected → Val → Heap × Res Unit
  | 0, h, _, _ => (h, .fuelOut)
  | fuel + 1, h, r, reason =>
    match r with
    | .consume => (h, Res.ok ())
    | .throws msg => (h, Res.thrown msg)
    | .aggregateReject aggId =>
      let a := getAgg h aggId
      if (getNode h a.rootPromise).state = .Rejected then (h, Res.ok ())
      else
        match rejectN fuel h a.rootPromise reason with
        | (h', Res.ok _) => (h', Res.ok ())
        | (h', Res.thrown m) => (h', Res.thrown m)
        | (h', Res.fuelOut) => (h', Res.fuelOut)
termination_by structural fuel _ _ _ => fuel

end

/-- `InternalPromise.then(onFulfilled?, onRejected?)`: creates the child
node, records the callbacks, appends it to this node's children, and -
when this node is already settled - replays settlement onto the child:
the resolve path when Fulfilled or when the rejection was consumed
(handling a promise-valued callback return by pushing it as the child's
child and returning it instead), the reject path otherwise.  Returns the
id of the node handed back to the caller. -/
def thenN (fuel : Nat) (h : Heap) (parentId : Nat)
    (onF : Option OnFulfilled) (onR : Option OnRejected) : Heap × Res Nat :=
  let newId := h.nodes.length
  let h1 : Heap := { h with nodes := h.nodes ++ [{ onFulfilled := onF, onRejected := onR }] }
  let p := getNode h1 parentId
  let h2 := setNode h1 parentId { p with children := p.children ++ [newId] }
  if p.state ≠ .Pending then
    if p.state = .Fulfilled ∨ p.rejectWasConsumed then
      match resolveN fuel h2 newId p.result with
      | (h3, Res.ok rv) =>
        match rv, notNullUndef rv with
        | Val.vpromise rid, true =>
          let c := getNode h3 newId
          (setNode h3 newId { c with children := c.children ++ [rid] }, Res.ok rid)
        | rv', true =>
          let c := getNode h3 newId
          (setNode h3 newId { c with result := rv' }, Res.ok newId)
        | _, false => (h3, Res.ok newId)
      | (h3, Res.thrown m) => (h3, Res.thrown m)
      | (h3, Res.fuelOut) => (h3, Res.fuelOut)
    else
      match rejectN fuel h2 newId p.reason with
      | (h3, Res.ok _) => (h3, Res.ok newId)
      | (h3, Res.thrown m) => (h3, Res.thrown m)
      | (h3, Res.fuelOut) => (h3, Res.fuelOut)
  else (h2, Res.ok newId)

/-- `InternalPromise.catch(onRejected)` = `then(undefined, onRejected)`. -/
def catchN (fuel : Nat) (h : Heap) (parentId : Nat) (onR : OnRejected) : Heap × Res Nat :=
  thenN fuel h parentId none (some onR)

/-- One action of a resolver callback passed to the constructor: call
`resolve(v)`, call `reject(r)`, or raise an error. -/
inductive ResolverStep where
  | callResolve (v : Val)
  | callReject (r : Val)
  | throwErr (msg : String)
deriving DecidableEq

/-- Run the resolver's actions in order; a raise aborts the rest. -/
def runResolver (fuel : Nat) (h : Heap) (id : Nat) : List ResolverStep → Heap × Res Unit
  | [] => (h, Res.ok ())
  | .callResolve v :: rest =>
    match resolveN fuel h id v with
    | (h', Res.ok _) => runResolver fuel h' id rest
    | (h', Res.thrown m) => (h', Res.thrown m)
    | (h', Res.fuelOut) => (h', Res.fuelOut)
  | .callReject r :: rest =>
    match rejectN fuel h id r with
    | (h', Res.ok _) => runResolver fuel h' id rest
    | (h', Res.thrown m) => (h', Res.thrown m)
    | (h', Res.fuelOut) => (h', Res.fuelOut)
  | .throwErr m :: _ => (h, Res.thrown m)

/-- The constructor `new InternalPromise(resolver?)`: allocates a fresh
Pending node; with a resolver, runs it inside try/catch, turning a raise
into `this._reject(e.message)`.  Returns the new node's id. -/
def newPromiseN (fuel : Nat) (h : Heap)
    (resolver : Option (List ResolverStep)) : Heap × Nat × Res Unit :=
  let id := h.nodes.length
  let h1 : Heap := { h with nodes := h.nodes ++ [{}] }
  match resolver with
  | none => (h1, id, Res.ok ())
  | some steps =>
    match runResolver fuel h1 id steps with
    | (h2, Res.ok _) => (h2, id, Res.ok ())
    | (h2, Res.thrown m) =>
      match rejectN fuel h2 id (Val.vstr m) with
      | (h3, Res.ok _) => (h3, id, Res.ok ())
      | (h3, Res.thrown m') => (h3, id, Res.thrown m')
      | (h3, Res.fuelOut) => (h3, id, Res.fuelOut)
    | (h2, Res.fuelOut) => (h2, id, Res.fuelOut)

/-- `InternalPromise.resolve(value)`: a fresh node immediately driven
through `_resolve(value)`. -/
def staticResolveN (fuel : Nat) (h : Heap) (v : Val) : Heap × Nat × Res Unit :=
  let id := h.nodes.length
  let h1 : Heap := { h with nodes := h.nodes ++ [{}] }
  match resolveN fuel h1 id v with
  | (h2, Res.ok _) => (h2, id, Res.ok ())
  | (h2, Res.thrown m) => (h2, id, Res.thrown m)
  | (h2, Res.fuelOut) => (h2, id, Res.fuelOut)

/-- `value()`: raises "Promise is not fulfilled" unless Fulfilled,
otherwise returns `_result`. -/
def valueN (h : Heap) (id : Nat) : Except String Val :=
  if (getNode h id).state = .Fulfilled then Except.ok (getNode h id).result
  else Except.error "Promise is not fulfilled"

/-- `reason()`: raises "Promise is not rejected" unless Rejected,
otherwise returns `_reason`. -/
def reasonN (h : Heap) (id : Nat) : Except String Val :=
  if (getNode h id).state = .Rejected then Except.ok (getNode h id).reason
  else Except.error "Promise is not rejected"

/-- `InternalPromise._RegisterForFulfillment(promise, agregator, index)`:
registers the aggregator's continuation pair on the input via `then`. -/
def RegisterForFulfillmentN (fuel : Nat) (h : Heap) (pid aggId index : Nat) : Heap × Res Unit :=
  match thenN fuel h pid (some (.aggregate aggId index)) (some (.aggregateReject aggId)) with
  | (h', Res.ok _) => (h', Res.ok ())
  | (h', Res.thrown m) => (h', Res.thrown m)
  | (h', Res.fuelOut) => (h', Res.fuelOut)

/-- The registration loop of `all`. -/
def registerLoop (fuel : Nat) (h : Heap) : List Nat → Nat → Nat → Heap × Res Unit
  | [], _, _ => (h, Res.ok ())
  | p :: rest, aggId, idx =>
    match RegisterForFulfillmentN fuel h p aggId idx with
    | (h', Res.ok _) => registerLoop fuel h' rest aggId (idx + 1)
    | (h', Res.thrown m) => (h', Res.thrown m)
    | (h', Res.fuelOut) => (h', Res.fuelOut)

/-- `InternalPromise.all(promises)`: fresh root node, fresh aggregator
with `target = promises.length`, then registration of every input in
index order.  Returns the root node's id. -/
def allN (fuel : Nat) (h : Heap) (ps : List Nat) : Heap × Nat × Res Unit :=
  let rootId := h.nodes.length
  let h1 : Heap := { h with nodes := h.nodes ++ [{}] }
  let aggId := h1.aggs.length
  let h2 : Heap := { h1 with
    aggs := h1.aggs ++ [{ count := 0, target := ps.length, rootPromise := rootId, results := [] }] }
  match registerLoop fuel h2 ps aggId 0 with
  | (h3, r) => (h3, rootId, r)

/-- An external completion of an input future: fulfillment or rejection
of the node with the given id. -/
inductive Ev where
  | fulfill (i : Nat) (v : Val)
  | rejectE (i : Nat) (r : Val)
deriving DecidableEq

def evIndex : Ev → Nat
  | .fulfill i _ => i
  | .rejectE i _ => i

def applyEv (fuel : Nat) (h : Heap) : Ev → Heap
  | .fulfill i v => (resolveN fuel h i v).1
  | .rejectE i r => (rejectN fuel h i r).1

def applyEvs (fuel : Nat) (h : Heap) : List Ev → Heap
  | [] => h
  | e :: es => applyEvs fuel (applyEv fuel h e) es

/-- A heap of `N` freshly constructed, still-Pending input promises
(ids `0 .. N-1`). -/
def mkInputs (N : Nat) : Heap := { nodes := List.replicate N {}, aggs := [] }

/-- `all` applied to `N` fresh Pending inputs: the root gets id `N`, the
aggregator id `0`, and input `i`'s registered continuation node id
`N + 1 + i`. -/
def allSetup (N : Nat) : Heap × Nat × Res Unit := allN 20 (mkInputs N) (List.range N)

/-! ### Heap access lemmas -/

theorem getNode_eq_getElem (h : Heap) (id : Nat) : getNode h id = h.nodes[id]?.getD {} := by
  rw [getNode, List.getD_eq_getD_get?, List.get?_eq_getElem?]

theorem getAgg_eq_getElem (h : Heap) (id : Nat) : getAgg h id = h.aggs[id]?.getD {} := by
  rw [getAgg, List.getD_eq_getD_get?, List.get?_eq_getElem?]

theorem nodes_length_setNode (h : Heap) (id : Nat) (n : Node) :
    (setNode h id n).nodes.length = h.nodes.length := List.length_set ..

theorem aggs_setNode (h : Heap) (id : Nat) (n : Node) : (setNode h id n).aggs = h.aggs := rfl

theorem nodes_setAgg (h : Heap) (id : Nat) (a : Agregator) : (setAgg h id a).nodes = h.nodes := rfl

theorem getNode_setAgg (h : Heap) (i j : Nat) (a : Agregator) :
    getNode (setAgg h i a) j = getNode h j := rfl

theorem getAgg_setNode (h : Heap) (i j : Nat) (n : Node) :
    getAgg (setNode h i n) j = getAgg h j := rfl

theorem aggs_setAgg (h : Heap) (id : Nat) (a : Agregator) :
    (setAgg h id a).aggs = h.aggs.set id a := rfl

theorem nodes_length_setAgg (h : Heap) (id : Nat) (a : Agregator) :
    (setAgg h id a).nodes.length = h.nodes.length := rfl

theorem getNode_setNode_self (h : Heap) (id : Nat) (n : Node) (hid : id < h.nodes.length) :
    getNode (setNode h id n) id = n := by
  rw [getNode_eq_getElem, setNode, List.getElem?_set_self hid]
  rfl

theorem getNode_setNode_ne (h : Heap) {i j : Nat} (n : Node) (hne : i ≠ j) :
    getNode (setNode h i n) j = getNode h j := by
  rw [getNode_eq_getElem, getNode_eq_getElem, setNode, List.getElem?_set_ne hne]

theorem getAgg_setAgg_self (h : Heap) (id : Nat) (a : Agregator) (hid : id < h.aggs.length) :
    getAgg (setAgg h id a) id = a := by
  rw [getAgg_eq_getElem, setAgg, List.getElem?_set_self hid]
  rfl

theorem getNode_append_lt (h : Heap) (n : Node) {j : Nat} (hj : j < h.nodes.length) :
    getNode { h with nodes := h.nodes ++ [n] } j = getNode h j := by
  rw [getNode, getNode, List.getD_append _ _ _ _ hj]

theorem getNode_append_self (h : Heap) (n : Node) :
    getNode { h with nodes := h.nodes ++ [n] } h.nodes.length = n := by
  rw [getNode, List.getD_append_right _ _ _ _ (Nat.le_refl _), Nat.sub_self]
  rfl

/-! ### Sparse array lemmas -/

theorem getAt_setAt_self (l : List (Option Val)) (i : Nat) (v : Val) :
    getAt (setAt l i v) i = some v := by
  unfold getAt setAt
  rw [List.getD_eq_getElem?_getD]
  by_cases hi : i < l.length
  · rw [if_pos hi, List.getElem?_set_self hi]
    rfl
  · rw [if_neg hi]
    have hlen : (l ++ List.replicate (i - l.length) none).length = i := by
      simp [List.length_replicate]
      omega
    rw [List.getElem?_append_right (by omega), hlen, Nat.sub_self]
    rfl

theorem getAt_setAt_ne (l : List (Option Val)) {i j : Nat} (v : Val) (hne : i ≠ j) :
    getAt (setAt l j v) i = getAt l i := by
  unfold getAt setAt
  rw [List.getD_eq_getElem?_getD, List.getD_eq_getElem?_getD]
  by_cases hj : j < l.length
  · rw [if_pos hj, List.getElem?_set_ne (Ne.symm hne)]
  · rw [if_neg hj]
    have hlen : (l ++ List.replicate (j - l.length) none).length = j := by
      simp [List.length_replicate]
      omega
    by_cases hi : i < l.length
    · rw [List.getElem?_append, if_pos (by omega), List.getElem?_append, if_pos hi]
    · rw [List.getElem?_eq_none (le_of_not_lt hi)]
      by_cases hij : i < j
      · rw [List.getElem?_append, if_pos (by omega), List.getElem?_append, if_neg hi,
          List.getElem?_replicate, if_pos (by omega)]
        rfl
      · rw [List.getElem?_eq_none (by simp [List.length_replicate]; omega)]

theorem getAt_of_length_le (l : List (Option Val)) {i : Nat} (hi : l.length ≤ i) :
    getAt l i = none := List.getD_eq_default _ _ hi

theorem length_setAt (l : List (Option Val)) (i : Nat) (v : Val) :
    (setAt l i v).length = if i < l.length then l.length else i + 1 := by
  unfold setAt
  by_cases hi : i < l.length
  · simp [hi]
  · simp [hi, List.length_replicate]
    omega

end BabylonPromise

namespace BabylonPromise

/-! ### Unfolding and leaf-node lemmas for the settlement routines -/

theorem resolveList_nil (f : Nat) (h : Heap) (v : Val) (hf : 1 ≤ f) :
    resolveList f h [] v = (h, Res.ok ()) := by
  obtain ⟨g, rfl⟩ : ∃ g, f = g + 1 := ⟨f - 1, by omega⟩
  simp only [resolveList]

theorem rejectFanout_nil (f : Nat) (h : Heap) (id : Nat) (reason : Val) (hf : 1 ≤ f) :
    rejectFanout f h [] id reason = (h, Res.ok ()) := by
  obtain ⟨g, rfl⟩ : ∃ g, f = g + 1 := ⟨f - 1, by omega⟩
  simp only [rejectFanout]

theorem resolveList_cons (g : Nat) (h : Heap) (c : Nat) (cs : List Nat) (v : Val) :
    resolveList (g + 1) h (c :: cs) v =
      match resolveN g h c v with
      | (h', Res.ok _) => resolveList g h' cs v
      | (h', Res.thrown m) => (h', Res.thrown m)
      | (h', Res.fuelOut) => (h', Res.fuelOut) := by
  simp only [resolveList]

theorem rejectFanout_cons (g : Nat) (h : Heap) (c : Nat) (cs : List Nat) (id : Nat) (reason : Val) :
    rejectFanout (g + 1) h (c :: cs) id reason =
      if (getNode h id).rejectWasConsumed then
        match resolveN g h c Val.vnull with
        | (h', Res.ok _) => rejectFanout g h' cs id reason
        | (h', Res.thrown m) => (h', Res.thrown m)
        | (h', Res.fuelOut) => (h', Res.fuelOut)
      else
        match rejectN g h c reason with
        | (h', Res.ok _) => rejectFanout g h' cs id reason
        | (h', Res.thrown m) => (h', Res.thrown m)
        | (h', Res.fuelOut) => (h', Res.fuelOut) := by
  simp only [rejectFanout]

/-- `_resolve` on a node with no `onFulfilled` callback and no children:
it marks the node Fulfilled with the value and returns `null`. -/
theorem resolveN_leaf (f : Nat) (h : Heap) (id : Nat) (v : Val) (hf : 2 ≤ f)
    (hid : id < h.nodes.length)
    (hF : (getNode h id).onFulfilled = none)
    (hC : (getNode h id).children = []) :
    resolveN f h id v =
      (setNode h id { getNode h id with state := .Fulfilled, result := v }, Res.ok Val.vnull) := by
  obtain ⟨g, rfl⟩ : ∃ g, f = g + 2 := ⟨f - 2, by omega⟩
  rw [show g + 2 = (g + 1) + 1 from rfl]
  simp only [resolveN, hF, hC, notNullUndef]
  rw [getNode_setNode_self _ _ _ hid]
  rw [resolveList_nil _ _ _ (by omega)]

/-- `_reject` on a node with no `onRejected` handler and no children: it
marks the node Rejected with the reason. -/
theorem rejectN_leaf (f : Nat) (h : Heap) (id : Nat) (r : Val) (hf : 2 ≤ f)
    (hid : id < h.nodes.length)
    (hR : (getNode h id).onRejected = none)
    (hC : (getNode h id).children = []) :
    rejectN f h id r =
      (setNode h id { getNode h id with state := .Rejected, reason := r }, Res.ok ()) := by
  obtain ⟨g, rfl⟩ : ∃ g, f = g + 2 := ⟨f - 2, by omega⟩
  rw [show g + 2 = (g + 1) + 1 from rfl]
  simp only [rejectN, hR, hC, Option.isSome_none, Bool.false_eq_true, if_false]
  rw [getNode_setNode_self _ _ _ hid]
  rw [rejectFanout_nil _ _ _ _ (by omega)]

/-- Fan-out of `_resolve` over a list of leaf children (no callbacks, no
children of their own): each gets marked Fulfilled with the value; all
other nodes are untouched. -/
theorem resolveList_leaves (cs : List Nat) : ∀ (f : Nat) (h : Heap) (v : Val),
    cs.length + 2 ≤ f →
    (∀ c ∈ cs, c < h.nodes.length ∧ (getNode h c).onFulfilled = none ∧
      (getNode h c).children = []) →
    ∃ h2, resolveList f h cs v = (h2, Res.ok ()) ∧
      h2.nodes.length = h.nodes.length ∧ h2.aggs = h.aggs ∧
      (∀ c ∈ cs, (getNode h2 c).state = .Fulfilled ∧ (getNode h2 c).result = v) ∧
      (∀ j, j ∉ cs → getNode h2 j = getNode h j) := by
  induction cs with
  | nil =>
    intro f h v hf _
    exact ⟨h, resolveList_nil f h v (by omega), rfl, rfl, by simp, fun j _ => rfl⟩
  | cons c cs ih =>
    intro f h v hf hcs
    obtain ⟨g, rfl⟩ : ∃ g, f = g + 1 := ⟨f - 1, by omega⟩
    obtain ⟨hclen, hcF, hcC⟩ := hcs c (List.mem_cons_self c cs)
    rw [resolveList_cons, resolveN_leaf g h c v (by simp at hf; omega) hclen hcF hcC]
    set X : Node := { getNode h c with state := .Fulfilled, result := v } with hX
    have hXs : (getNode (setNode h c X) c) = X := getNode_setNode_self _ _ _ hclen
    obtain ⟨h2, hrun, hlen2, haggs2, hful, hframe⟩ := ih g (setNode h c X) v (by simp at hf ⊢; omega)
      (by
        intro c2 hc2
        obtain ⟨hl2, hF2, hC2⟩ := hcs c2 (List.mem_cons_of_mem _ hc2)
        by_cases he : c2 = c
        · subst he
          rw [nodes_length_setNode, hXs]
          exact ⟨hl2, hF2, hC2⟩
        · rw [nodes_length_setNode, getNode_setNode_ne _ _ (fun hx => he hx.symm)]
          exact ⟨hl2, hF2, hC2⟩)
    refine ⟨h2, hrun, by rw [hlen2, nodes_length_setNode], by rw [haggs2, aggs_setNode], ?_, ?_⟩
    · intro c2 hc2
      rcases List.mem_cons.mp hc2 with he | hm
      · subst he
        by_cases hmem : c2 ∈ cs
        · exact hful c2 hmem
        · rw [hframe c2 hmem, hXs]
          exact ⟨rfl, rfl⟩
      · exact hful c2 hm
    · intro j hj
      rw [hframe j (fun hx => hj (List.mem_cons_of_mem _ hx)),
        getNode_setNode_ne _ _ (fun hx => hj (by rw [← hx]; exact List.mem_cons_self c cs))]

/-- The `_reject` fan-out when the rejection was consumed, over leaf
children: each child is resolved with `null`. -/
theorem rejectFanout_consumed_leaves (cs : List Nat) : ∀ (f : Nat) (h : Heap) (id : Nat) (r : Val),
    cs.length + 2 ≤ f →
    (getNode h id).rejectWasConsumed = true →
    (∀ c ∈ cs, c < h.nodes.length ∧ c ≠ id ∧ (getNode h c).onFulfilled = none ∧
      (getNode h c).children = []) →
    ∃ h2, rejectFanout f h cs id r = (h2, Res.ok ()) ∧
      h2.nodes.length = h.nodes.length ∧ h2.aggs = h.aggs ∧
      (∀ c ∈ cs, (getNode h2 c).state = .Fulfilled ∧ (getNode h2 c).result = Val.vnull) ∧
      (∀ j, j ∉ cs → getNode h2 j = getNode h j) := by
  induction cs with
  | nil =>
    intro f h id r hf _ _
    exact ⟨h, rejectFanout_nil f h id r (by omega), rfl, rfl, by simp, fun j _ => rfl⟩
  | cons c cs ih =>
    intro f h id r hf hcons hcs
    obtain ⟨g, rfl⟩ : ∃ g, f = g + 1 := ⟨f - 1, by omega⟩
    obtain ⟨hclen, hcne, hcF, hcC⟩ := hcs c (List.mem_cons_self c cs)
    rw [rejectFanout_cons, if_pos hcons,
      resolveN_leaf g h c Val.vnull (by simp at hf; omega) hclen hcF hcC]
    set X : Node := { getNode h c with state := .Fulfilled, result := Val.vnull } with hX
    have hXs : (getNode (setNode h c X) c) = X := getNode_setNode_self _ _ _ hclen
    obtain ⟨h2, hrun, hlen2, haggs2, hful, hframe⟩ := ih g (setNode h c X) id r
      (by simp at hf ⊢; omega)
      (by rw [getNode_setNode_ne _ _ hcne]; exact hcons)
      (by
        intro c2 hc2
        obtain ⟨hl2, hne2, hF2, hC2⟩ := hcs c2 (List.mem_cons_of_mem _ hc2)
        by_cases he : c2 = c
        · subst he
          rw [nodes_length_setNode, hXs]
          exact ⟨hl2, hne2, hF2, hC2⟩
        · rw [nodes_length_setNode, getNode_setNode_ne _ _ (fun hx => he hx.symm)]
          exact ⟨hl2, hne2, hF2, hC2⟩)
    refine ⟨h2, hrun, by rw [hlen2, nodes_length_setNode], by rw [haggs2, aggs_setNode], ?_, ?_⟩
    · intro c2 hc2
      rcases List.mem_cons.mp hc2 with he | hm
      · subst he
        by_cases hmem : c2 ∈ cs
        · exact hful c2 hmem
        · rw [hframe c2 hmem, hXs]
          exact ⟨rfl, rfl⟩
      · exact hful c2 hm
    · intro j hj
      rw [hframe j (fun hx => hj (List.mem_cons_of_mem _ hx)),
        getNode_setNode_ne _ _ (fun hx => hj (by rw [← hx]; exact List.mem_cons_self c cs))]

/-- The `_reject` fan-out when the rejection was not consumed, over leaf
children (no handler, no children of their own): each child is rejected
with the same reason. -/
theorem rejectFanout_unconsumed_leaves (cs : List Nat) : ∀ (f : Nat) (h : Heap) (id : Nat) (r : Val),
    cs.length + 2 ≤ f →
    (getNode h id).rejectWasConsumed = false →
    (∀ c ∈ cs, c < h.nodes.length ∧ c ≠ id ∧ (getNode h c).onRejected = none ∧
      (getNode h c).children = []) →
    ∃ h2, rejectFanout f h cs id r = (h2, Res.ok ()) ∧
      h2.nodes.length = h.nodes.length ∧ h2.aggs = h.aggs ∧
      (∀ c ∈ cs, (getNode h2 c).state = .Rejected ∧ (getNode h2 c).reason = r) ∧
      (∀ j, j ∉ cs → getNode h2 j = getNode h j) := by
  induction cs with
  | nil =>
    intro f h id r hf _ _
    exact ⟨h, rejectFanout_nil f h id r (by omega), rfl, rfl, by simp, fun j _ => rfl⟩
  | cons c cs ih =>
    intro f h id r hf hcons hcs
    obtain ⟨g, rfl⟩ : ∃ g, f = g + 1 := ⟨f - 1, by omega⟩
    obtain ⟨hclen, hcne, hcR, hcC⟩ := hcs c (List.mem_cons_self c cs)
    rw [rejectFanout_cons, if_neg (by rw [hcons]; simp),
      rejectN_leaf g h c r (by simp at hf; omega) hclen hcR hcC]
    set X : Node := { getNode h c with state := .Rejected, reason := r } with hX
    have hXs : (getNode (setNode h c X) c) = X := getNode_setNode_self _ _ _ hclen
    obtain ⟨h2, hrun, hlen2, haggs2, hrej, hframe⟩ := ih g (setNode h c X) id r
      (by simp at hf ⊢; omega)
      (by rw [getNode_setNode_ne _ _ hcne]; exact hcons)
      (by
        intro c2 hc2
        obtain ⟨hl2, hne2, hR2, hC2⟩ := hcs c2 (List.mem_cons_of_mem _ hc2)
        by_cases he : c2 = c
        · subst he
          rw [nodes_length_setNode, hXs]
          exact ⟨hl2, hne2, hR2, hC2⟩
        · rw [nodes_length_setNode, getNode_setNode_ne _ _ (fun hx => he hx.symm)]
          exact ⟨hl2, hne2, hR2, hC2⟩)
    refine ⟨h2, hrun, by rw [hlen2, nodes_length_setNode], by rw [haggs2, aggs_setNode], ?_, ?_⟩
    · intro c2 hc2
      rcases List.mem_cons.mp hc2 with he | hm
      · subst he
        by_cases hmem : c2 ∈ cs
        · exact hrej c2 hmem
        · rw [hframe c2 hmem, hXs]
          exact ⟨rfl, rfl⟩
      · exact hrej c2 hm
    · intro j hj
      rw [hframe j (fun hx => hj (List.mem_cons_of_mem _ hx)),
        getNode_setNode_ne _ _ (fun hx => hj (by rw [← hx]; exact List.mem_cons_self c cs))]

theorem setNode_setNode (h : Heap) (id : Nat) (a b : Node) :
    setNode (setNode h id a) id b = setNode h id b := by
  unfold setNode
  simp [List.set_set]

/-- Unfolding `_reject` on a node with an ordinary consuming handler: the
node is marked Rejected with the reason and `_rejectWasConsumed`, then
fan-out runs over its children with the consumed flag set. -/
theorem rejectN_consume_unfold (g : Nat) (h : Heap) (id : Nat) (R : Val)
    (hid : id < h.nodes.length)
    (hR : (getNode h id).onRejected = some .consume) :
    rejectN (g + 2) h id R =
      rejectFanout (g + 1)
        (setNode h id
          { getNode h id with state := .Rejected, reason := R, rejectWasConsumed := true })
        (getNode h id).children id R := by
  rw [show g + 2 = (g + 1) + 1 from rfl]
  simp only [rejectN, hR, callOnRejected, Option.isSome_some, if_true]
  rw [getNode_setNode_self _ _ _ hid, setNode_setNode]
  rw [getNode_setNode_self _ _ _ hid]

/-- Unfolding `_reject` on a node with no handler: the node is marked
Rejected with the reason, then fan-out runs with the flag untouched. -/
theorem rejectN_nohandler_unfold (g : Nat) (h : Heap) (id : Nat) (R : Val)
    (hid : id < h.nodes.length)
    (hR : (getNode h id).onRejected = none) :
    rejectN (g + 2) h id R =
      rejectFanout (g + 1)
        (setNode h id { getNode h id with state := .Rejected, reason := R })
        (getNode h id).children id R := by
  rw [show g + 2 = (g + 1) + 1 from rfl]
  simp only [rejectN, hR, Option.isSome_none, Bool.false_eq_true, if_false]
  rw [getNode_setNode_self _ _ _ hid]

/-! ### Claim theorems -/

/-- C1: the claim says settlement is monotonic and first-call-wins: once a
node left Pending, a later `resolve`/`reject` must leave `state`,
`result` and `reason` unchanged.  The code has no Pending guard in
`_resolve`/`_reject`: this theorem evaluates the code at the failing
input `new InternalPromise((res, rej) => { res(1); rej("boom"); })` - the
first call fulfills the node with 1, yet the subsequent reject moves the
very same node from Fulfilled to Rejected with reason "boom", and a
second resolve overwrites the stored result. -/
theorem C1_resolve_then_reject_regresses_state :
    (getNode (newPromiseN 20 {} (some [.callResolve (Val.vnum 1)])).1 0).state
        = PromiseStates.Fulfilled ∧
    (getNode (newPromiseN 20 {} (some [.callResolve (Val.vnum 1)])).1 0).result = Val.vnum 1 ∧
    (getNode (newPromiseN 20 {}
        (some [.callResolve (Val.vnum 1), .callReject (Val.vstr "boom")])).1 0).state
        = PromiseStates.Rejected ∧
    (getNode (newPromiseN 20 {}
        (some [.callResolve (Val.vnum 1), .callReject (Val.vstr "boom")])).1 0).reason
        = Val.vstr "boom" ∧
    (getNode (newPromiseN 20 {}
        (some [.callResolve (Val.vnum 1), .callResolve (Val.vnum 2)])).1 0).result
        = Val.vnum 2 := by
  decide

/-- C2: the claim says `all([])` settles Fulfilled with an empty sequence
immediately.  The code registers a completion continuation per input and
resolves the root only when `count` reaches `target` inside such a
continuation: with zero inputs no continuation ever runs and the root
promise stays Pending forever. -/
theorem C2_all_empty_never_settles :
    (getNode (allN 20 {} []).1 (allN 20 {} []).2.1).state = PromiseStates.Pending ∧
    (getNode (allN 20 {} []).1 (allN 20 {} []).2.1).state ≠ PromiseStates.Fulfilled ∧
    valueN (allN 20 {} []).1 (allN 20 {} []).2.1
      = Except.error "Promise is not fulfilled" := by
  decide

/-- C8: `value()` fails with the invalid-state message exactly when the
node is not Fulfilled and otherwise returns the stored result; `reason()`
fails exactly when the node is not Rejected and otherwise returns the
stored reason. -/
theorem C8_value_reason_invalid_state (h : Heap) (id : Nat) :
    (valueN h id = Except.error "Promise is not fulfilled"
      ↔ (getNode h id).state ≠ PromiseStates.Fulfilled) ∧
    ((getNode h id).state = PromiseStates.Fulfilled
      → valueN h id = Except.ok (getNode h id).result) ∧
    (reasonN h id = Except.error "Promise is not rejected"
      ↔ (getNode h id).state ≠ PromiseStates.Rejected) ∧
    ((getNode h id).state = PromiseStates.Rejected
      → reasonN h id = Except.ok (getNode h id).reason) := by
  rcases hst : (getNode h id).state <;> simp [valueN, reasonN, hst]

/-- C8 witness: on a heap with a single Pending node, `value()` and
`reason()` both fail with the invalid-state condition, and on a heap with
a single Fulfilled node `value()` returns the stored result. -/
theorem C8_witness :
    valueN { nodes := [{}] } 0 = Except.error "Promise is not fulfilled" ∧
    reasonN { nodes := [{}] } 0 = Except.error "Promise is not rejected" ∧
    valueN { nodes := [{ state := .Fulfilled, result := Val.vnum 7 }] } 0
      = Except.ok (Val.vnum 7) :=
  ⟨(C8_value_reason_invalid_state { nodes := [{}] } 0).1.mpr (by decide),
   (C8_value_reason_invalid_state { nodes := [{}] } 0).2.2.1.mpr (by decide),
   (C8_value_reason_invalid_state { nodes := [{ state := .Fulfilled, result := Val.vnum 7 }] } 0).2.1
     (by decide)⟩

/-- C10: when a node with a raising `onRejected` handler is rejected, the
exception propagates out of `_reject` uncaught: the resulting heap is
exactly the input heap with only this node marked Rejected with the given
reason - `_rejectWasConsumed` is never set (the flag assignment follows
the handler call), no child is notified, and no node is rejected with the
handler's message. -/
theorem C10_throwing_onRejected_propagates (f : Nat) (h : Heap) (id : Nat) (R : Val) (m : String)
    (hf : 2 ≤ f)
    (hr : (getNode h id).onRejected = some (.throws m)) :
    rejectN f h id R =
      (setNode h id { getNode h id with state := .Rejected, reason := R }, Res.thrown m) := by
  obtain ⟨g, rfl⟩ : ∃ g, f = g + 2 := ⟨f - 2, by omega⟩
  rw [show g + 2 = (g + 1) + 1 from rfl]
  simp only [rejectN, hr, callOnRejected]

/-- C10 witness: concrete instance - a node with a handler raising
"kaboom" and one registered child; rejecting it with "R" leaves the child
Pending, leaves the flag unset, and propagates the exception. -/
theorem C10_witness :
    rejectN 9 { nodes := [{ children := [1], onRejected := some (.throws "kaboom") }, {}] } 0
        (Val.vstr "R")
      = (setNode { nodes := [{ children := [1], onRejected := some (.throws "kaboom") }, {}] } 0
          { getNode { nodes := [{ children := [1], onRejected := some (.throws "kaboom") }, {}] } 0
            with state := .Rejected, reason := Val.vstr "R" },
         Res.thrown "kaboom") :=
  C10_throwing_onRejected_propagates 9
    { nodes := [{ children := [1], onRejected := some (.throws "kaboom") }, {}] } 0
    (Val.vstr "R") "kaboom" (by omega) rfl

/-- C9: failures become rejections carrying the failure's message.
First conjunct: a resolver that raises before settling leaves the
constructed node (id `h.nodes.length`) Rejected with the message as its
reason.  Second conjunct: an `onFulfilled` continuation that raises
during `_resolve` leaves that node Rejected with the message, not
Fulfilled. -/
theorem C9_failures_become_rejections :
    (∀ (f : Nat) (h : Heap) (m : String), 2 ≤ f →
      (getNode (newPromiseN f h (some [.throwErr m])).1 h.nodes.length).state
          = PromiseStates.Rejected ∧
      (getNode (newPromiseN f h (some [.throwErr m])).1 h.nodes.length).reason = Val.vstr m) ∧
    (∀ (f : Nat) (h : Heap) (id : Nat) (v : Val) (m : String), 4 ≤ f →
      id < h.nodes.length →
      (getNode h id).onFulfilled = some (.throws m) →
      (getNode h id).onRejected = none →
      (getNode h id).children = [] →
      (getNode (resolveN f h id v).1 id).state = PromiseStates.Rejected ∧
      (getNode (resolveN f h id v).1 id).reason = Val.vstr m) := by
  constructor
  · intro f h m hf
    obtain ⟨g, rfl⟩ : ∃ g, f = g + 2 := ⟨f - 2, by omega⟩
    simp only [newPromiseN, runResolver]
    rw [rejectN_leaf (g + 2) _ _ _ (by omega) (by simp)
      (by rw [getNode_append_self]) (by rw [getNode_append_self])]
    rw [getNode_setNode_self _ _ _ (by simp), getNode_append_self]
    exact ⟨rfl, rfl⟩
  · intro f h id v m hf hid hF hR hC
    obtain ⟨g, rfl⟩ : ∃ g, f = g + 4 := ⟨f - 4, by omega⟩
    rw [show g + 4 = (g + 3) + 1 from rfl]
    simp only [resolveN, hF]
    rw [show g + 3 = (g + 2) + 1 from rfl]
    simp only [callOnFulfilled, rejectCatch]
    rw [rejectN_leaf (g + 2) _ _ _ (by omega) (by rw [nodes_length_setNode]; exact hid)
      (by rw [getNode_setNode_self _ _ _ hid]; exact hR)
      (by rw [getNode_setNode_self _ _ _ hid]; exact hC)]
    rw [getNode_setNode_self _ _ _ (by rw [nodes_length_setNode]; exact hid)]
    exact ⟨rfl, rfl⟩

/-- C9 witness: a fresh promise whose resolver raises "bad" ends Rejected
with reason "bad", and a node whose `onFulfilled` raises "oops" ends
Rejected with reason "oops" after being resolved. -/
theorem C9_witness :
    ((getNode (newPromiseN 9 {} (some [.throwErr "bad"])).1 0).state
        = PromiseStates.Rejected ∧
     (getNode (newPromiseN 9 {} (some [.throwErr "bad"])).1 0).reason = Val.vstr "bad") ∧
    ((getNode (resolveN 9 { nodes := [{ onFulfilled := some (.throws "oops") }] } 0
          (Val.vnum 1)).1 0).state = PromiseStates.Rejected ∧
     (getNode (resolveN 9 { nodes := [{ onFulfilled := some (.throws "oops") }] } 0
          (Val.vnum 1)).1 0).reason = Val.vstr "oops") :=
  ⟨C9_failures_become_rejections.1 9 {} "bad" (by omega),
   C9_failures_become_rejections.2 9 { nodes := [{ onFulfilled := some (.throws "oops") }] } 0
     (Val.vnum 1) "oops" (by omega) (by decide) rfl rfl rfl⟩

/-- The rejection-consumption chain of the spec: node 0 is `A`; node 1 is
`B = A.catch(h)` with an ordinary handler; node 2 is `C = B.then(...)`;
node 3 is `D = A.then(...)` with no handler; then `A` is rejected with
reason "R". -/
def chainHeap : Heap :=
  (rejectN 20
    (thenN 20
      (thenN 20
        (catchN 20 (newPromiseN 20 {} none).1 0 .consume).1
        1 none none).1
      0 none none).1
    0 (Val.vstr "R")).1

/-- C4: rejection consumption.  First conjunct: rejecting a node whose
`onRejected` handler is an ordinary consuming handler resolves every
child with the absent value `null` (each plain child settles Fulfilled
with `null`) and marks the rejection consumed.  Second conjunct: with no
handler, every child is rejected with the same reason.  Third conjunct:
in the chain A -> (reject "R") -> B.catch(h) -> C with sibling D, node C
settles Fulfilled with the absent value while D settles Rejected with
reason "R". -/
theorem C4_rejection_consumption :
    (∀ (f : Nat) (h : Heap) (id : Nat) (R : Val),
      (getNode h id).children.length + 4 ≤ f →
      id < h.nodes.length →
      (getNode h id).onRejected = some .consume →
      (∀ c ∈ (getNode h id).children, c < h.nodes.length ∧ c ≠ id ∧
        (getNode h c).onFulfilled = none ∧ (getNode h c).children = []) →
      (getNode (rejectN f h id R).1 id).state = PromiseStates.Rejected ∧
      (getNode (rejectN f h id R).1 id).reason = R ∧
      (getNode (rejectN f h id R).1 id).rejectWasConsumed = true ∧
      (∀ c ∈ (getNode h id).children,
        (getNode (rejectN f h id R).1 c).state = PromiseStates.Fulfilled ∧
        (getNode (rejectN f h id R).1 c).result = Val.vnull)) ∧
    (∀ (f : Nat) (h : Heap) (id : Nat) (R : Val),
      (getNode h id).children.length + 4 ≤ f →
      id < h.nodes.length →
      (getNode h id).onRejected = none →
      (getNode h id).rejectWasConsumed = false →
      (∀ c ∈ (getNode h id).children, c < h.nodes.length ∧ c ≠ id ∧
        (getNode h c).onRejected = none ∧ (getNode h c).children = []) →
      (getNode (rejectN f h id R).1 id).state = PromiseStates.Rejected ∧
      (getNode (rejectN f h id R).1 id).reason = R ∧
      (∀ c ∈ (getNode h id).children,
        (getNode (rejectN f h id R).1 c).state = PromiseStates.Rejected ∧
        (getNode (rejectN f h id R).1 c).reason = R)) ∧
    ((getNode chainHeap 2).state = PromiseStates.Fulfilled ∧
     (getNode chainHeap 2).result = Val.vnull ∧
     (getNode chainHeap 3).state = PromiseStates.Rejected ∧
     (getNode chainHeap 3).reason = Val.vstr "R" ∧
     (getNode chainHeap 1).state = PromiseStates.Rejected ∧
     (getNode chainHeap 1).rejectWasConsumed = true) := by
  refine ⟨?_, ?_, by decide⟩
  · intro f h id R hf hid hR hcs
    obtain ⟨g, rfl⟩ : ∃ g, f = g + 2 := ⟨f - 2, by omega⟩
    rw [rejectN_consume_unfold g h id R hid hR]
    set Y : Node :=
      { getNode h id with state := .Rejected, reason := R, rejectWasConsumed := true } with hY
    obtain ⟨h2, hrun, hlen2, haggs2, hful, hframe⟩ :=
      rejectFanout_consumed_leaves (getNode h id).children (g + 1) (setNode h id Y) id R
        (by omega)
        (by rw [getNode_setNode_self _ _ _ hid])
        (by
          intro c hc
          obtain ⟨hl, hne, hF, hC⟩ := hcs c hc
          rw [nodes_length_setNode, getNode_setNode_ne _ _ (fun hx => hne hx.symm)]
          exact ⟨hl, hne, hF, hC⟩)
    have hidnot : id ∉ (getNode h id).children := fun hmem => (hcs id hmem).2.1 rfl
    rw [hrun]
    have hfin : getNode h2 id = Y := by
      rw [hframe id hidnot, getNode_setNode_self _ _ _ hid]
    refine ⟨by rw [hfin], by rw [hfin], by rw [hfin], ?_⟩
    intro c hc
    exact hful c hc
  · intro f h id R hf hid hR hflag hcs
    obtain ⟨g, rfl⟩ : ∃ g, f = g + 2 := ⟨f - 2, by omega⟩
    rw [rejectN_nohandler_unfold g h id R hid hR]
    obtain ⟨h2, hrun, hlen2, haggs2, hrej, hframe⟩ :=
      rejectFanout_unconsumed_leaves (getNode h id).children (g + 1)
        (setNode h id { getNode h id with state := .Rejected, reason := R }) id R (by omega)
        (by rw [getNode_setNode_self _ _ _ hid]; exact hflag)
        (by
          intro c hc
          obtain ⟨hl, hne, hRc, hC⟩ := hcs c hc
          rw [nodes_length_setNode, getNode_setNode_ne _ _ (fun hx => hne hx.symm)]
          exact ⟨hl, hne, hRc, hC⟩)
    have hidnot : id ∉ (getNode h id).children := fun hmem => (hcs id hmem).2.1 rfl
    rw [hrun]
    have hfin : getNode h2 id = { getNode h id with state := .Rejected, reason := R } := by
      rw [hframe id hidnot, getNode_setNode_self _ _ _ hid]
    exact ⟨by rw [hfin], by rw [hfin], fun c hc => hrej c hc⟩

/-- C4 witness: a node with a consuming handler and two plain children;
rejecting it with "R" settles both children Fulfilled with `null`. -/
theorem C4_witness :
    (getNode (rejectN 9 { nodes := [{ children := [1, 2], onRejected := some .consume }, {}, {}] }
        0 (Val.vstr "R")).1 1).state = PromiseStates.Fulfilled ∧
    (getNode (rejectN 9 { nodes := [{ children := [1, 2], onRejected := some .consume }, {}, {}] }
        0 (Val.vstr "R")).1 1).result = Val.vnull :=
  (C4_rejection_consumption.1 9
    { nodes := [{ children := [1, 2], onRejected := some .consume }, {}, {}] } 0 (Val.vstr "R")
    (by decide) (by decide) rfl (by decide)).2.2.2 1 (by decide)

/-- Unfolding `_resolve` on a node whose `onFulfilled` returns a plain
(non-promise) value `w`: the node is fulfilled with `v`, no children are
moved, fan-out runs over the node's own children with `v` (not `w`), and
`w` is the returned value. -/
theorem resolveN_plainvalue_unfold (g : Nat) (h : Heap) (id : Nat) (v w : Val)
    (hid : id < h.nodes.length)
    (hF : (getNode h id).onFulfilled = some (.retValue w))
    (hw : isPromiseVal w = false) :
    resolveN (g + 2) h id v =
      match resolveList (g + 1)
          (setNode h id { getNode h id with state := .Fulfilled, result := v })
          (getNode h id).children v with
      | (h4, Res.ok _) => (h4, Res.ok w)
      | (h4, Res.thrown m) => rejectCatch (g + 1) h4 id m
      | (h4, Res.fuelOut) => (h4, Res.fuelOut) := by
  rw [show g + 2 = (g + 1) + 1 from rfl]
  simp only [resolveN, hF, callOnFulfilled]
  cases w with
  | vpromise pid => simp [isPromiseVal] at hw
  | vundef =>
    simp only [notNullUndef]
    rw [getNode_setNode_self _ _ _ hid]
  | vnull =>
    simp only [notNullUndef]
    rw [getNode_setNode_self _ _ _ hid]
  | vnum n =>
    simp only [notNullUndef]
    rw [getNode_setNode_self _ _ _ hid]
  | vstr s =>
    simp only [notNullUndef]
    rw [getNode_setNode_self _ _ _ hid]
  | varr xs =>
    simp only [notNullUndef]
    rw [getNode_setNode_self _ _ _ hid]

/-- Running a `retStaticResolve w` callback: `InternalPromise.resolve(w)`
allocates a fresh node at the end of the heap, drives it through
`_resolve(w)` (leaving it Fulfilled with `w`), and returns it. -/
theorem callOnFulfilled_static (g : Nat) (h : Heap) (w value : Val) (hg : 2 ≤ g) :
    callOnFulfilled (g + 1) h (.retStaticResolve w) value
      = (setNode { h with nodes := h.nodes ++ [{}] } h.nodes.length
          { state := .Fulfilled, result := w }, Res.ok (Val.vpromise h.nodes.length)) := by
  simp only [callOnFulfilled]
  rw [resolveN_leaf g _ _ _ hg (by simp)
    (by rw [getNode_append_self]) (by rw [getNode_append_self])]
  rw [getNode_append_self]

/-- Unfolding `_moveChildren` on an already-Fulfilled target: the source
node's children are spliced over to the target (the source keeps an empty
list), then each moved child is resolved with the target's result. -/
theorem moveChildrenN_fulfilled (g : Nat) (h : Heap) (rid srcId : Nat)
    (hne : rid ≠ srcId) (hrid : rid < h.nodes.length)
    (hst : (getNode h rid).state = .Fulfilled) :
    moveChildrenN (g + 1) h rid srcId =
      resolveList g
        (setNode (setNode h srcId { getNode h srcId with children := [] }) rid
          { getNode h rid with children := (getNode h srcId).children })
        (getNode h srcId).children (getNode h rid).result := by
  simp only [moveChildrenN]
  rw [getNode_setNode_ne _ _ (fun hx => hne hx.symm)]
  rw [getNode_setNode_self _ _ _ (by rw [nodes_length_setNode]; exact hrid)]
  rw [hst]
  rfl

/-- Unfolding `_resolve` on a node whose `onFulfilled` returns a freshly
created `resolve(w)` promise: the inner promise gets id `h.nodes.length`,
the node's children are spliced over to it by `_moveChildren` and
immediately resolved with `w`, and the node's own fan-out then runs over
an emptied children list. -/
theorem resolveN_staticresolve_unfold (g : Nat) (h : Heap) (id : Nat) (v w : Val)
    (hid : id < h.nodes.length)
    (hF : (getNode h id).onFulfilled = some (.retStaticResolve w)) :
    resolveN (g + 4) h id v =
      (let nid := h.nodes.length
       let A : Node := { getNode h id with state := .Fulfilled, result := v }
       let cs := (getNode h id).children
       let h1 := setNode h id A
       let h1b : Heap := { h1 with nodes := h1.nodes ++ [{}] }
       let h2 := setNode h1b nid { state := .Fulfilled, result := w }
       let h3 := setNode h2 id { A with children := [] }
       let H4 := setNode h3 nid { state := .Fulfilled, result := w, children := cs }
       match resolveList (g + 2) H4 cs w with
       | (h5, Res.ok _) =>
         (match resolveList (g + 3) h5 ((getNode h5 id).children) v with
          | (h6, Res.ok _) => (h6, Res.ok (Val.vpromise nid))
          | (h6, Res.thrown m) => rejectCatch (g + 3) h6 id m
          | (h6, Res.fuelOut) => (h6, Res.fuelOut))
       | (h5, Res.thrown m) => rejectCatch (g + 3) h5 id m
       | (h5, Res.fuelOut) => (h5, Res.fuelOut)) := by
  rw [show g + 4 = (g + 3) + 1 from rfl]
  simp only [resolveN, hF]
  rw [show g + 3 = (g + 2) + 1 from rfl]
  rw [callOnFulfilled_static (g + 2) _ w v (by omega)]
  simp only [notNullUndef]
  simp only [nodes_length_setNode]
  rw [moveChildrenN_fulfilled (g + 2) _ _ _ (by omega)
    (by simp [setNode, nodes_length_setNode])
    (by
      rw [getNode_setNode_self]
      simp [setNode, nodes_length_setNode])]
  rw [getNode_setNode_self _ _ _ (by simp [setNode, nodes_length_setNode])]
  rw [getNode_setNode_ne _ _ (show (h.nodes.length : Nat) ≠ id by omega)]
  rw [getNode_append_lt _ _ (by rw [nodes_length_setNode]; exact hid)]
  rw [getNode_setNode_self _ _ _ hid]

/-- The C5 counterexample scenario: a Pending root (id 0), node `X` (id 1)
with an `onFulfilled` returning `resolve(99)`, a child `C` (id 2) of `X`,
and then `X._resolve(5)`.  The inner `resolve(99)` promise gets id 3. -/
def movedChildHeap : Heap :=
  (resolveN 20
    (thenN 20
      (thenN 20 (newPromiseN 20 {} none).1 0 (some (.retStaticResolve (Val.vnum 99))) none).1
      1 none none).1
    1 (Val.vnum 5)).1

/-- C5 counterexample: the claim says that when a node is resolved with
`v`, every child in its children list is resolved with `v` itself even
when `onFulfilled` returned another Deferred.  In the code,
`_moveChildren` splices the children away to the returned promise, so the
child `C` of `X` is settled with the inner promise's value 99, not with
`X`'s own settlement value 5, and `X`'s children list is left empty. -/
theorem C5_counterexample :
    (getNode movedChildHeap 1).state = PromiseStates.Fulfilled ∧
    (getNode movedChildHeap 1).result = Val.vnum 5 ∧
    (getNode movedChildHeap 2).state = PromiseStates.Fulfilled ∧
    (getNode movedChildHeap 2).result = Val.vnum 99 ∧
    (getNode movedChildHeap 2).result ≠ Val.vnum 5 ∧
    (getNode movedChildHeap 1).children = [] := by
  decide

/-- C5 amended: fan-out forwards the node's own settlement value `v` only
when `onFulfilled` returns a plain non-promise value (first conjunct: all
children settle Fulfilled with `v`, not with the transformed return `w`);
when `onFulfilled` returns another Deferred, the node's children are
first spliced over to that Deferred and settle with its value `w`, and
the node's own children list is emptied (second conjunct). -/
theorem C5_fanout_value_amended :
    (∀ (f : Nat) (h : Heap) (id : Nat) (v w : Val),
      (getNode h id).children.length + 4 ≤ f →
      id < h.nodes.length →
      (getNode h id).onFulfilled = some (.retValue w) →
      isPromiseVal w = false →
      (∀ c ∈ (getNode h id).children, c < h.nodes.length ∧
        (getNode h c).onFulfilled = none ∧ (getNode h c).children = []) →
      (resolveN f h id v).2 = Res.ok w ∧
      (∀ c ∈ (getNode h id).children,
        (getNode (resolveN f h id v).1 c).state = PromiseStates.Fulfilled ∧
        (getNode (resolveN f h id v).1 c).result = v)) ∧
    (∀ (f : Nat) (h : Heap) (id : Nat) (v w : Val),
      (getNode h id).children.length + 6 ≤ f →
      id < h.nodes.length →
      (getNode h id).onFulfilled = some (.retStaticResolve w) →
      (∀ c ∈ (getNode h id).children, c < h.nodes.length ∧
        (getNode h c).onFulfilled = none ∧ (getNode h c).children = []) →
      (resolveN f h id v).2 = Res.ok (Val.vpromise h.nodes.length) ∧
      (getNode (resolveN f h id v).1 id).children = [] ∧
      (∀ c ∈ (getNode h id).children,
        (getNode (resolveN f h id v).1 c).state = PromiseStates.Fulfilled ∧
        (getNode (resolveN f h id v).1 c).result = w)) := by
  constructor
  · intro f h id v w hf hid hF hw hcs
    obtain ⟨g, rfl⟩ : ∃ g, f = g + 2 := ⟨f - 2, by omega⟩
    rw [resolveN_plainvalue_unfold g h id v w hid hF hw]
    obtain ⟨h2, hrun, hlen2, haggs2, hful, hframe⟩ :=
      resolveList_leaves (getNode h id).children (g + 1)
        (setNode h id { getNode h id with state := .Fulfilled, result := v }) v (by omega)
        (by
          intro c hc
          obtain ⟨hl, hFc, hCc⟩ := hcs c hc
          have hne : c ≠ id := by
            intro he
            rw [he, hF] at hFc
            cases hFc
          rw [nodes_length_setNode, getNode_setNode_ne _ _ (fun hx => hne hx.symm)]
          exact ⟨hl, hFc, hCc⟩)
    rw [hrun]
    exact ⟨rfl, fun c hc => hful c hc⟩
  · intro f h id v w hf hid hF hcs
    obtain ⟨g, rfl⟩ : ∃ g, f = g + 4 := ⟨f - 4, by omega⟩
    rw [resolveN_staticresolve_unfold g h id v w hid hF]
    simp only []
    set A : Node := { state := PromiseStates.Fulfilled, result := v, reason := (getNode h id).reason, children := (getNode h id).children, onFulfilled := (getNode h id).onFulfilled, onRejected := (getNode h id).onRejected, rejectWasConsumed := (getNode h id).rejectWasConsumed } with hA
    set h1 : Heap := setNode h id A with hh1
    set P0 : Node := { state := PromiseStates.Pending, result := Val.vundef, reason := Val.vundef, children := [], onFulfilled := none, onRejected := none, rejectWasConsumed := false } with hP0
    set h1b : Heap := { nodes := h1.nodes ++ [P0], aggs := h1.aggs } with hh1b
    set B : Node := { state := PromiseStates.Fulfilled, result := w, reason := Val.vundef, children := [], onFulfilled := none, onRejected := none, rejectWasConsumed := false } with hB
    set A2 : Node := { state := PromiseStates.Fulfilled, result := v, reason := (getNode h id).reason, children := ([] : List Nat), onFulfilled := (getNode h id).onFulfilled, onRejected := (getNode h id).onRejected, rejectWasConsumed := (getNode h id).rejectWasConsumed } with hA2
    set B2 : Node := { state := PromiseStates.Fulfilled, result := w, reason := Val.vundef, children := (getNode h id).children, onFulfilled := none, onRejected := none, rejectWasConsumed := false } with hB2
    have hlen1 : h1.nodes.length = h.nodes.length := by
      rw [hh1, nodes_length_setNode]
    have hlen1b : h1b.nodes.length = h.nodes.length + 1 := by
      rw [hh1b]
      simp [hlen1]
    have hg1b : ∀ j, j < h.nodes.length → j ≠ id → getNode h1b j = getNode h j := by
      intro j hj hjid
      rw [hh1b, getNode_append_lt _ _ (by rw [hlen1]; exact hj), hh1,
        getNode_setNode_ne _ _ (fun hx => hjid hx.symm)]
    have hH4len : (setNode (setNode (setNode h1b h.nodes.length B) id A2) h.nodes.length
        B2).nodes.length = h.nodes.length + 1 := by
      simp [nodes_length_setNode, hlen1b]
    obtain ⟨h5, hrun, hlen5, haggs5, hful, hframe⟩ :=
      resolveList_leaves (getNode h id).children (g + 2)
        (setNode (setNode (setNode h1b h.nodes.length B) id A2) h.nodes.length B2) w
        (by omega)
        (by
          intro c hc
          obtain ⟨hl, hFc, hCc⟩ := hcs c hc
          have hne : c ≠ id := by
            intro he
            rw [he, hF] at hFc
            cases hFc
          have hnn : c ≠ h.nodes.length := by omega
          rw [hH4len, getNode_setNode_ne _ _ (fun hx => hnn hx.symm),
            getNode_setNode_ne _ _ (fun hx => hne hx.symm),
            getNode_setNode_ne _ _ (fun hx => hnn hx.symm),
            hg1b c hl hne]
          exact ⟨by omega, hFc, hCc⟩)
    have hidnot : id ∉ (getNode h id).children := by
      intro hmem
      obtain ⟨_, hFc, _⟩ := hcs id hmem
      rw [hF] at hFc
      cases hFc
    have hid5 : getNode h5 id = A2 := by
      rw [hframe id hidnot,
        getNode_setNode_ne _ _ (show (h.nodes.length : Nat) ≠ id by omega),
        getNode_setNode_self _ _ _ (by simp [nodes_length_setNode, hlen1b]; omega)]
    have hch2 : A2.children = [] := by rw [hA2]
    simp only [hrun]
    simp only [hid5, hch2]
    rw [resolveList_nil (g + 3) h5 v (by omega)]
    exact ⟨rfl, by rw [hid5, hch2], fun c hc => hful c hc⟩

/-- C5 witness: a node with `onFulfilled` returning the plain value 10
and one plain child, resolved with 5: the callback's transformed value 10
is the return of `_resolve`, but the child settles Fulfilled with the
original 5. -/
theorem C5_witness :
    (resolveN 9 { nodes := [{ children := [1], onFulfilled := some (.retValue (Val.vnum 10)) }, {}] } 0 (Val.vnum 5)).2
      = Res.ok (Val.vnum 10) ∧
    (getNode (resolveN 9 { nodes := [{ children := [1], onFulfilled := some (.retValue (Val.vnum 10)) }, {}] } 0 (Val.vnum 5)).1 1).state
      = PromiseStates.Fulfilled ∧
    (getNode (resolveN 9 { nodes := [{ children := [1], onFulfilled := some (.retValue (Val.vnum 10)) }, {}] } 0 (Val.vnum 5)).1 1).result
      = Val.vnum 5 := by
  have hmain := C5_fanout_value_amended.1 9
    { nodes := [{ children := [1], onFulfilled := some (.retValue (Val.vnum 10)) }, {}] } 0
    (Val.vnum 5) (Val.vnum 10) (by decide) (by decide) rfl rfl (by decide)
  exact ⟨hmain.1, (hmain.2 1 (by decide)).1, (hmain.2 1 (by decide)).2⟩

/-- The C6 counterexample scenario: a Pending parent (id 0), then a
`then` child (id 1) whose callback returns `resolve(42)`, then the parent
is resolved with 7. -/
def pendingParentHeap : Heap :=
  (resolveN 20
    (thenN 20 (newPromiseN 20 {} none).1 0 (some (.retStaticResolve (Val.vnum 42))) none).1
    0 (Val.vnum 7)).1

/-- C6 counterexample: the claim says that for every Deferred, `then` with
a callback returning `Deferred.resolve(42)` yields a chain node settling
Fulfilled with 42.  For a parent that is still Pending at the `then`
call, the node handed back by `then` is the fresh child (id 1), and when
the parent is later resolved with 7 that node settles Fulfilled with the
parent's value 7, not 42. -/
theorem C6_counterexample :
    (thenN 20 (newPromiseN 20 {} none).1 0
        (some (.retStaticResolve (Val.vnum 42))) none).2 = Res.ok 1 ∧
    (getNode pendingParentHeap 1).state = PromiseStates.Fulfilled ∧
    (getNode pendingParentHeap 1).result = Val.vnum 7 ∧
    (getNode pendingParentHeap 1).result ≠ Val.vnum 42 := by
  decide

/-- C6 amended: when the parent is already Fulfilled at the `then` call,
the call returns the inner chained Deferred (the node allocated by the
callback's `resolve(w)`, id `h.nodes.length + 1`, distinct from the fresh
child `h.nodes.length`), which is settled Fulfilled with the plain value
`w` - not with a promise object - so continued chaining binds to the
innermost link. -/
theorem C6_chained_return_flattening (f : Nat) (h : Heap) (pid : Nat) (w : Val)
    (hf : 4 ≤ f) (hpid : pid < h.nodes.length)
    (hst : (getNode h pid).state = PromiseStates.Fulfilled) :
    (thenN f h pid (some (.retStaticResolve w)) none).2 = Res.ok (h.nodes.length + 1) ∧
    (getNode (thenN f h pid (some (.retStaticResolve w)) none).1
      (h.nodes.length + 1)).state = PromiseStates.Fulfilled ∧
    (getNode (thenN f h pid (some (.retStaticResolve w)) none).1
      (h.nodes.length + 1)).result = w ∧
    valueN (thenN f h pid (some (.retStaticResolve w)) none).1 (h.nodes.length + 1)
      = Except.ok w := by
  obtain ⟨g, rfl⟩ : ∃ g, f = g + 4 := ⟨f - 4, by omega⟩
  simp only [thenN]
  rw [getNode_append_lt _ _ hpid]
  simp only [hst]
  set CN : Node := { state := PromiseStates.Pending, result := Val.vundef, reason := Val.vundef, children := [], onFulfilled := some (OnFulfilled.retStaticResolve w), onRejected := none, rejectWasConsumed := false } with hCN
  set h1 : Heap := { nodes := h.nodes ++ [CN], aggs := h.aggs } with hh1
  set PX : Node := { state := PromiseStates.Fulfilled, result := (getNode h pid).result, reason := (getNode h pid).reason, children := (getNode h pid).children ++ [h.nodes.length], onFulfilled := (getNode h pid).onFulfilled, onRejected := (getNode h pid).onRejected, rejectWasConsumed := (getNode h pid).rejectWasConsumed } with hPX
  set h2 : Heap := setNode h1 pid PX with hh2
  have hlen1 : h1.nodes.length = h.nodes.length + 1 := by
    rw [hh1]
    simp
  have hlen2 : h2.nodes.length = h.nodes.length + 1 := by
    rw [hh2, nodes_length_setNode, hlen1]
  have hnp : pid ≠ h.nodes.length := by omega
  have hCN2 : getNode h2 h.nodes.length = CN := by
    rw [hh2, getNode_setNode_ne _ _ hnp, hh1]
    exact getNode_append_self h CN
  have hF2 : (getNode h2 h.nodes.length).onFulfilled = some (.retStaticResolve w) := by
    rw [hCN2, hCN]
  rw [resolveN_staticresolve_unfold g h2 h.nodes.length ((getNode h pid).result) w
    (by omega) hF2]
  simp only []
  simp only [hCN2, hCN]
  rw [resolveList_nil (g + 2) _ _ (by omega)]
  simp only [hlen2]
  rw [getNode_setNode_ne _ _ (show h.nodes.length + 1 ≠ h.nodes.length by omega),
    getNode_setNode_self _ _ _
      (by simp [nodes_length_setNode, List.length_append, hlen2]; omega)]
  rw [resolveList_nil (g + 3) _ _ (by omega)]
  simp only [notNullUndef]
  rw [if_pos (show PromiseStates.Fulfilled ≠ PromiseStates.Pending from by decide)]
  rw [if_pos (Or.inl trivial)]
  have hne10 : h.nodes.length ≠ h.nodes.length + 1 := by omega
  refine ⟨rfl, ?_, ?_, ?_⟩
  · rw [getNode_setNode_ne _ _ hne10,
      getNode_setNode_self _ _ _ (by simp [nodes_length_setNode, hlen2])]
  · rw [getNode_setNode_ne _ _ hne10,
      getNode_setNode_self _ _ _ (by simp [nodes_length_setNode, hlen2])]
  · simp only [valueN]
    rw [getNode_setNode_ne _ _ hne10,
      getNode_setNode_self _ _ _ (by simp [nodes_length_setNode, hlen2])]
    simp

/-- C6 witness: a heap with one Fulfilled node (value 7); `then` with a
callback returning `resolve(42)` hands back node 2 (the inner promise),
Fulfilled with the plain 42. -/
theorem C6_witness :
    (thenN 9 { nodes := [{ state := .Fulfilled, result := Val.vnum 7 }] } 0
        (some (.retStaticResolve (Val.vnum 42))) none).2 = Res.ok 2 ∧
    (getNode (thenN 9 { nodes := [{ state := .Fulfilled, result := Val.vnum 7 }] } 0
        (some (.retStaticResolve (Val.vnum 42))) none).1 2).state = PromiseStates.Fulfilled ∧
    (getNode (thenN 9 { nodes := [{ state := .Fulfilled, result := Val.vnum 7 }] } 0
        (some (.retStaticResolve (Val.vnum 42))) none).1 2).result = Val.vnum 42 ∧
    valueN (thenN 9 { nodes := [{ state := .Fulfilled, result := Val.vnum 7 }] } 0
        (some (.retStaticResolve (Val.vnum 42))) none).1 2 = Except.ok (Val.vnum 42) :=
  C6_chained_return_flattening 9 { nodes := [{ state := .Fulfilled, result := Val.vnum 7 }] } 0
    (Val.vnum 42) (by omega) (by decide) rfl

/-! ### The `all` aggregation development -/

/-- The shape of input `i` after `all`-registration on `N` fresh inputs:
one registered continuation child with node id `N + 1 + i`. -/
def inputNode (N i : Nat) : Node := { children := [N + 1 + i] }

/-- The continuation node `_RegisterForFulfillment` registers on input
`i`: the aggregator callbacks of aggregator 0, slot `i`. -/
def childNode (i : Nat) : Node :=
  { onFulfilled := some (.aggregate 0 i), onRejected := some (.aggregateReject 0) }

/-- The aggregator of an `N`-input `all` whose root promise is node `N`. -/
def mkAgg (cnt N : Nat) (res : List (Option Val)) : Agregator :=
  { count := cnt, target := N, rootPromise := N, results := res }

theorem inputNode_children (N i : Nat) : (inputNode N i).children = [N + 1 + i] := rfl

theorem inputNode_onF (N i : Nat) : (inputNode N i).onFulfilled = none := rfl

theorem inputNode_onR (N i : Nat) : (inputNode N i).onRejected = none := rfl

theorem inputNode_flag (N i : Nat) : (inputNode N i).rejectWasConsumed = false := rfl

theorem childNode_onF (i : Nat) : (childNode i).onFulfilled = some (.aggregate 0 i) := rfl

theorem childNode_onR (i : Nat) : (childNode i).onRejected = some (.aggregateReject 0) := rfl

theorem childNode_children (i : Nat) : (childNode i).children = [] := rfl

theorem inputNode_reason (N i : Nat) : (inputNode N i).reason = Val.vundef := rfl

theorem inputNode_result (N i : Nat) : (inputNode N i).result = Val.vundef := rfl

theorem childNode_reason (i : Nat) : (childNode i).reason = Val.vundef := rfl

theorem childNode_result (i : Nat) : (childNode i).result = Val.vundef := rfl

theorem childNode_flag (i : Nat) : (childNode i).rejectWasConsumed = false := rfl

/-- The heap invariant holding throughout an `all` run over `N` inputs:
`todo` lists the not-yet-settled input indices (their input and
continuation nodes still in registration shape), the aggregator holds
`cnt` completions and the partial `res` array, and the root node `N` is
`rn` (with no callbacks and no children ever). -/
structure AllInv (N : Nat) (todo : List Nat) (cnt : Nat) (res : List (Option Val))
    (rn : Node) (h : Heap) : Prop where
  len : h.nodes.length = 2 * N + 1
  aggs : h.aggs = [mkAgg cnt N res]
  root : getNode h N = rn
  rootF : rn.onFulfilled = none
  rootR : rn.onRejected = none
  rootC : rn.children = []
  slots : ∀ i ∈ todo, i < N ∧ getNode h i = inputNode N i ∧ getNode h (N + 1 + i) = childNode i

theorem getNode_nodes_all_default (l : List Node) (ags : List Agregator) (i : Nat)
    (hall : ∀ n ∈ l, n = ({} : Node)) :
    getNode { nodes := l, aggs := ags } i = {} := by
  rw [getNode_eq_getElem]
  rcases hg : l[i]? with _ | n
  · rfl
  · have := hall n (List.getElem?_mem hg)
    rw [this]
    rfl

/-- Running the registration loop of `all` over the still-unregistered
inputs `j, j+1, ..., N-1` of a heap in mid-registration shape completes
the registration: every input ends in registration shape, the root and
the aggregator are untouched. -/
theorem registerLoop_setup (f : Nat) (N : Nat) : ∀ (k j : Nat) (h : Heap),
    j + k = N →
    h.nodes.length = N + 1 + j →
    h.aggs = [mkAgg 0 N []] →
    (∀ i, j ≤ i → i < N → getNode h i = {}) →
    getNode h N = {} →
    (∀ i, i < j → getNode h i = inputNode N i ∧ getNode h (N + 1 + i) = childNode i) →
    ∃ h2, registerLoop f h (List.range' j k) 0 j = (h2, Res.ok ()) ∧
      h2.nodes.length = 2 * N + 1 ∧ h2.aggs = [mkAgg 0 N []] ∧ getNode h2 N = {} ∧
      (∀ i, i < N → getNode h2 i = inputNode N i ∧ getNode h2 (N + 1 + i) = childNode i) := by
  intro k
  induction k with
  | zero =>
    intro j h hjk hlen haggs hfresh hroot hdone
    refine ⟨h, rfl, by omega, haggs, hroot, ?_⟩
    intro i hi
    exact hdone i (by omega)
  | succ k ih =>
    intro j h hjk hlen haggs hfresh hroot hdone
    rw [List.range'_succ]
    have hjN : j < N := by omega
    have hp : getNode h j = ({} : Node) := hfresh j (Nat.le_refl j) hjN
    simp only [registerLoop, RegisterForFulfillmentN, thenN, hlen]
    rw [getNode_append_lt _ _ (by omega)]
    rw [hp]
    simp only [ne_eq, not_true_eq_false, if_false]
    obtain ⟨h2, hrun, hl2, hag2, hr2, hs2⟩ := ih (j + 1)
      (setNode { h with nodes := h.nodes ++ [childNode j] } j (inputNode N j))
      (by omega)
      (by rw [nodes_length_setNode]; simp [hlen]; omega)
      (by rw [aggs_setNode]; exact haggs)
      (by
        intro i hij hiN
        rw [getNode_setNode_ne _ _ (by omega : j ≠ i),
          getNode_append_lt _ _ (by omega)]
        exact hfresh i (by omega) hiN)
      (by
        rw [getNode_setNode_ne _ _ (by omega : j ≠ N),
          getNode_append_lt _ _ (by omega)]
        exact hroot)
      (by
        intro i hi
        by_cases hij : i = j
        · subst hij
          constructor
          · rw [getNode_setNode_self _ _ _ (by simp [hlen]; omega)]
          · rw [getNode_setNode_ne _ _ (by omega : i ≠ N + 1 + i)]
            have hx := getNode_append_self h (childNode i)
            rw [hlen] at hx
            exact hx
        · have hilt : i < j := by omega
          obtain ⟨ha, hb⟩ := hdone i hilt
          constructor
          · rw [getNode_setNode_ne _ _ (by omega : j ≠ i),
              getNode_append_lt _ _ (by omega)]
            exact ha
          · rw [getNode_setNode_ne _ _ (by omega : j ≠ N + 1 + i),
              getNode_append_lt _ _ (by omega)]
            exact hb)
    exact ⟨h2, hrun, hl2, hag2, hr2, hs2⟩

/-- `allSetup N` succeeds, returns root id `N`, and establishes the
`all` invariant: every input is in registration shape, the aggregator is
fresh, and the root node is freshly Pending. -/
theorem allSetup_spec (N : Nat) :
    ∃ h0, allSetup N = (h0, N, Res.ok ()) ∧ AllInv N (List.range N) 0 [] {} h0 := by
  obtain ⟨h2, hrun, hl2, hag2, hr2, hs2⟩ := registerLoop_setup 20 N N 0
    { nodes := List.replicate N ({} : Node) ++ [{}],
      aggs := [{ count := 0, target := N, rootPromise := N, results := [] }] }
    (by omega)
    (by simp)
    (by simp [mkAgg])
    (fun i _ _ => getNode_nodes_all_default _ _ i (by
      intro n hn
      rcases List.mem_append.mp hn with hm | hm
      · exact List.eq_of_mem_replicate hm
      · simpa using hm))
    (getNode_nodes_all_default _ _ N (by
      intro n hn
      rcases List.mem_append.mp hn with hm | hm
      · exact List.eq_of_mem_replicate hm
      · simpa using hm))
    (by omega)
  refine ⟨h2, ?_, ?_⟩
  · show allN 20 (mkInputs N) (List.range N) = (h2, N, Res.ok ())
    simp only [allN, mkInputs, List.length_replicate, List.length_range]
    rw [List.range_eq_range']
    simp only [List.nil_append, List.length_nil]
    rw [hrun]
  · refine ⟨hl2, hag2, hr2, rfl, rfl, rfl, ?_⟩
    intro i hi
    have hiN : i < N := List.mem_range.mp hi
    exact ⟨hiN, (hs2 i hiN).1, (hs2 i hiN).2⟩

theorem mkAgg_count (cnt N : Nat) (res : List (Option Val)) : (mkAgg cnt N res).count = cnt := rfl

theorem mkAgg_target (cnt N : Nat) (res : List (Option Val)) : (mkAgg cnt N res).target = N := rfl

theorem mkAgg_rootPromise (cnt N : Nat) (res : List (Option Val)) :
    (mkAgg cnt N res).rootPromise = N := rfl

theorem mkAgg_results (cnt N : Nat) (res : List (Option Val)) :
    (mkAgg cnt N res).results = res := rfl

/-- One fulfillment event on a still-registered input `j` of an `all`
run: the input and its continuation node settle Fulfilled with `v`, the
aggregator stores `v` at slot `j` and bumps `count`, and exactly when the
bumped count reaches the target the root is resolved with the collected
results array. -/
theorem fulfill_step (f N j cnt : Nat) (res : List (Option Val)) (rn : Node) (v : Val) (h : Heap)
    (hlen : h.nodes.length = 2 * N + 1)
    (hj : j < N)
    (hinp : getNode h j = inputNode N j)
    (hch : getNode h (N + 1 + j) = childNode j)
    (haggs : h.aggs = [mkAgg cnt N res])
    (hroot : getNode h N = rn)
    (hrootF : rn.onFulfilled = none)
    (hrootC : rn.children = []) :
    resolveN (f + 6) h j v =
      (if cnt + 1 = N then
        setNode
          (setAgg
            (setNode (setNode h j { state := .Fulfilled, result := v, children := [N + 1 + j] })
              (N + 1 + j) { state := .Fulfilled, result := v, onFulfilled := some (.aggregate 0 j), onRejected := some (.aggregateReject 0) })
            0 (mkAgg (cnt + 1) N (setAt res j v)))
          N { rn with state := .Fulfilled, result := arrOf (setAt res j v) }
      else
        setAgg
          (setNode (setNode h j { state := .Fulfilled, result := v, children := [N + 1 + j] })
            (N + 1 + j) { state := .Fulfilled, result := v, onFulfilled := some (.aggregate 0 j), onRejected := some (.aggregateReject 0) })
          0 (mkAgg (cnt + 1) N (setAt res j v)), Res.ok Val.vnull) := by
  have e1 : getNode (setNode h j { state := .Fulfilled, result := v, children := [N + 1 + j] })
      (N + 1 + j) = childNode j := by
    rw [getNode_setNode_ne _ _ (by omega : j ≠ N + 1 + j)]
    exact hch
  have e2 : getAgg (setNode (setNode h j { state := .Fulfilled, result := v, children := [N + 1 + j] })
      (N + 1 + j) { state := .Fulfilled, result := v, onFulfilled := some (.aggregate 0 j), onRejected := some (.aggregateReject 0) }) 0 = mkAgg cnt N res := by
    rw [getAgg_setNode, getAgg_setNode, getAgg_eq_getElem, haggs]
    rfl
  rw [show f + 6 = (f + 5) + 1 from rfl]
  simp only [resolveN, hinp, inputNode_onF, inputNode_onR, inputNode_reason, inputNode_flag,
    inputNode_children, notNullUndef]
  rw [getNode_setNode_self _ _ _ (by omega)]
  rw [show f + 5 = (f + 4) + 1 from rfl, resolveList_cons]
  rw [show f + 4 = (f + 3) + 1 from rfl]
  simp only [resolveN, e1, childNode_onF, childNode_onR, childNode_reason, childNode_flag,
    childNode_children, notNullUndef]
  rw [show f + 3 = (f + 2) + 1 from rfl]
  simp only [callOnFulfilled, e2, mkAgg_count, mkAgg_target, mkAgg_rootPromise, mkAgg_results]
  by_cases hc : cnt + 1 = N
  · rw [if_pos hc]
    have e3 : getNode (setAgg (setNode (setNode h j { state := .Fulfilled, result := v, children := [N + 1 + j] }) (N + 1 + j) { state := .Fulfilled, result := v, onFulfilled := some (.aggregate 0 j), onRejected := some (.aggregateReject 0) }) 0 { count := cnt + 1, target := N, rootPromise := N, results := setAt res j v }) N = rn := by
      rw [getNode_setAgg, getNode_setNode_ne _ _ (by omega : N + 1 + j ≠ N),
        getNode_setNode_ne _ _ (by omega : j ≠ N)]
      exact hroot
    rw [resolveN_leaf (f + 2) _ _ _ (by omega)
      (by rw [nodes_length_setAgg, nodes_length_setNode, nodes_length_setNode, hlen]; omega)
      (by rw [e3]; exact hrootF) (by rw [e3]; exact hrootC)]
    rw [e3]
    simp only []
    have e4 : getNode (setNode (setAgg (setNode (setNode h j { state := .Fulfilled, result := v, children := [N + 1 + j] }) (N + 1 + j) { state := .Fulfilled, result := v, onFulfilled := some (.aggregate 0 j), onRejected := some (.aggregateReject 0) }) 0 { count := cnt + 1, target := N, rootPromise := N, results := setAt res j v }) N { rn with state := .Fulfilled, result := arrOf (setAt res j v) }) (N + 1 + j) = { state := .Fulfilled, result := v, onFulfilled := some (.aggregate 0 j), onRejected := some (.aggregateReject 0) } := by
      rw [getNode_setNode_ne _ _ (by omega : N ≠ N + 1 + j), getNode_setAgg,
        getNode_setNode_self _ _ _ (by rw [nodes_length_setNode, hlen]; omega)]
    rw [e4]
    rw [show ({ state := .Fulfilled, result := v, onFulfilled := some (.aggregate 0 j), onRejected := some (.aggregateReject 0) } : Node).children = [] from rfl]
    rw [resolveList_nil (f + 2 + 1) _ v (by omega)]
    simp only []
    rw [resolveList_nil (f + 2 + 1 + 1) _ v (by omega)]
    rw [if_pos hc]
    rfl
  · rw [if_neg hc]
    simp only []
    have e4 : getNode (setAgg (setNode (setNode h j { state := .Fulfilled, result := v, children := [N + 1 + j] }) (N + 1 + j) { state := .Fulfilled, result := v, onFulfilled := some (.aggregate 0 j), onRejected := some (.aggregateReject 0) }) 0 { count := cnt + 1, target := N, rootPromise := N, results := setAt res j v }) (N + 1 + j) = { state := .Fulfilled, result := v, onFulfilled := some (.aggregate 0 j), onRejected := some (.aggregateReject 0) } := by
      rw [getNode_setAgg,
        getNode_setNode_self _ _ _ (by rw [nodes_length_setNode, hlen]; omega)]
    rw [e4]
    rw [show ({ state := .Fulfilled, result := v, onFulfilled := some (.aggregate 0 j), onRejected := some (.aggregateReject 0) } : Node).children = [] from rfl]
    rw [resolveList_nil (f + 2 + 1) _ v (by omega)]
    simp only []
    rw [resolveList_nil (f + 2 + 1 + 1) _ v (by omega)]
    rw [if_neg hc]
    rfl

/-- One rejection event on a still-registered input `j` of an `all` run:
the input and its continuation node settle Rejected with `r`, the
continuation's rejection handler rejects the root with `r` unless the
root is already Rejected (first failure wins), the continuation is marked
rejection-consumed, and the aggregator is untouched. -/
theorem reject_step (f N j cnt : Nat) (res : List (Option Val)) (rn : Node) (r : Val) (h : Heap)
    (hlen : h.nodes.length = 2 * N + 1)
    (hj : j < N)
    (hinp : getNode h j = inputNode N j)
    (hch : getNode h (N + 1 + j) = childNode j)
    (haggs : h.aggs = [mkAgg cnt N res])
    (hroot : getNode h N = rn)
    (hrootF : rn.onFulfilled = none)
    (hrootR : rn.onRejected = none)
    (hrootC : rn.children = []) :
    rejectN (f + 6) h j r =
      (setNode
        (if rn.state = PromiseStates.Rejected then
          setNode (setNode h j { state := .Rejected, reason := r, children := [N + 1 + j] })
            (N + 1 + j) { state := .Rejected, reason := r, onFulfilled := some (.aggregate 0 j), onRejected := some (.aggregateReject 0) }
        else
          setNode
            (setNode (setNode h j { state := .Rejected, reason := r, children := [N + 1 + j] })
              (N + 1 + j) { state := .Rejected, reason := r, onFulfilled := some (.aggregate 0 j), onRejected := some (.aggregateReject 0) })
            N { rn with state := .Rejected, reason := r })
        (N + 1 + j)
        { state := .Rejected, reason := r, onFulfilled := some (.aggregate 0 j), onRejected := some (.aggregateReject 0), rejectWasConsumed := true }, Res.ok ()) := by
  have e1 : getNode (setNode h j { state := .Rejected, reason := r, children := [N + 1 + j] })
      (N + 1 + j) = childNode j := by
    rw [getNode_setNode_ne _ _ (by omega : j ≠ N + 1 + j)]
    exact hch
  have e2 : getAgg (setNode (setNode h j { state := .Rejected, reason := r, children := [N + 1 + j] })
      (N + 1 + j) { state := .Rejected, reason := r, onFulfilled := some (.aggregate 0 j), onRejected := some (.aggregateReject 0) }) 0 = mkAgg cnt N res := by
    rw [getAgg_setNode, getAgg_setNode, getAgg_eq_getElem, haggs]
    rfl
  have e3 : getNode (setNode (setNode h j { state := .Rejected, reason := r, children := [N + 1 + j] })
      (N + 1 + j) { state := .Rejected, reason := r, onFulfilled := some (.aggregate 0 j), onRejected := some (.aggregateReject 0) }) N = rn := by
    rw [getNode_setNode_ne _ _ (by omega : N + 1 + j ≠ N),
      getNode_setNode_ne _ _ (by omega : j ≠ N)]
    exact hroot
  rw [show f + 6 = (f + 5) + 1 from rfl]
  simp only [rejectN, hinp, inputNode_onR, inputNode_onF, inputNode_result, inputNode_children,
    inputNode_flag, Option.isSome_none, Bool.false_eq_true, if_false]
  rw [getNode_setNode_self _ _ _ (by omega)]
  rw [show f + 5 = (f + 4) + 1 from rfl, rejectFanout_cons]
  rw [getNode_setNode_self _ _ _ (by omega)]
  rw [if_neg (by simp)]
  rw [show f + 4 = (f + 3) + 1 from rfl]
  simp only [rejectN, e1, childNode_onR, childNode_onF, childNode_result, childNode_children,
    childNode_flag, Option.isSome_some, if_true]
  rw [show f + 3 = (f + 2) + 1 from rfl]
  simp only [callOnRejected, e2, mkAgg_rootPromise, e3]
  by_cases hrj : rn.state = PromiseStates.Rejected
  · rw [if_pos hrj]
    simp only []
    rw [getNode_setNode_self _ _ _ (by rw [nodes_length_setNode, hlen]; omega)]
    simp only []
    rw [getNode_setNode_self _ _ _ (by rw [nodes_length_setNode, nodes_length_setNode, hlen]; omega)]
    rw [show ({ state := .Rejected, reason := r, onFulfilled := some (.aggregate 0 j), onRejected := some (.aggregateReject 0), rejectWasConsumed := true } : Node).children = [] from rfl]
    rw [rejectFanout_nil (f + 2 + 1) _ _ _ (by omega)]
    simp only []
    rw [rejectFanout_nil (f + 2 + 1 + 1) _ _ _ (by omega)]
    rw [if_pos hrj]
  · rw [if_neg hrj]
    rw [rejectN_leaf (f + 2) _ _ _ (by omega)
      (by rw [nodes_length_setNode, nodes_length_setNode, hlen]; omega)
      (by rw [e3]; exact hrootR) (by rw [e3]; exact hrootC)]
    rw [e3]
    simp only []
    rw [getNode_setNode_ne _ _ (by omega : N ≠ N + 1 + j)]
    rw [getNode_setNode_self _ _ _ (by rw [nodes_length_setNode, hlen]; omega)]
    simp only []
    rw [getNode_setNode_self _ _ _
      (by rw [nodes_length_setNode, nodes_length_setNode, nodes_length_setNode, hlen]; omega)]
    rw [show ({ state := .Rejected, reason := r, onFulfilled := some (.aggregate 0 j), onRejected := some (.aggregateReject 0), rejectWasConsumed := true } : Node).children = [] from rfl]
    rw [rejectFanout_nil (f + 2 + 1) _ _ _ (by omega)]
    simp only []
    rw [rejectFanout_nil (f + 2 + 1 + 1) _ _ _ (by omega)]
    rw [if_neg hrj]

/-- A fulfillment event on a still-registered input preserves the `all`
invariant when it is not the final completion: the aggregator advances,
the root is untouched. -/
theorem allInv_fulfill_step (N j cnt : Nat) (v : Val) (todo : List Nat)
    (res : List (Option Val)) (rn : Node) (h : Heap)
    (inv : AllInv N todo cnt res rn h) (hnd : todo.Nodup) (hjt : j ∈ todo)
    (hcnt : cnt + 1 ≠ N) :
    AllInv N (todo.erase j) (cnt + 1) (setAt res j v) rn ((resolveN 20 h j v).1) := by
  obtain ⟨hj, hinp, hch⟩ := inv.slots j hjt
  rw [show (20 : Nat) = 14 + 6 from rfl,
    fulfill_step 14 N j cnt res rn v h inv.len hj hinp hch inv.aggs inv.root inv.rootF inv.rootC]
  rw [if_neg hcnt]
  simp only []
  refine ⟨?_, ?_, ?_, inv.rootF, inv.rootR, inv.rootC, ?_⟩
  · rw [nodes_length_setAgg, nodes_length_setNode, nodes_length_setNode, inv.len]
  · rw [aggs_setAgg, aggs_setNode, aggs_setNode, inv.aggs]
    rfl
  · rw [getNode_setAgg, getNode_setNode_ne _ _ (by omega : N + 1 + j ≠ N),
      getNode_setNode_ne _ _ (by omega : j ≠ N)]
    exact inv.root
  · intro i hi
    have hmem := (hnd.mem_erase_iff.mp hi)
    obtain ⟨hij, hit⟩ := hmem
    obtain ⟨hiN, hiInp, hiCh⟩ := inv.slots i hit
    refine ⟨hiN, ?_, ?_⟩
    · rw [getNode_setAgg, getNode_setNode_ne _ _ (by omega : N + 1 + j ≠ i),
        getNode_setNode_ne _ _ (by omega : j ≠ i)]
      exact hiInp
    · rw [getNode_setAgg, getNode_setNode_ne _ _ (by omega : N + 1 + j ≠ N + 1 + i),
        getNode_setNode_ne _ _ (by omega : j ≠ N + 1 + i)]
      exact hiCh

/-- A rejection event on a still-registered input preserves the `all`
invariant: the aggregator is untouched, the root becomes Rejected with
the event's reason unless it already was Rejected (first failure wins). -/
theorem allInv_reject_step (N j cnt : Nat) (r : Val) (todo : List Nat)
    (res : List (Option Val)) (rn : Node) (h : Heap)
    (inv : AllInv N todo cnt res rn h) (hnd : todo.Nodup) (hjt : j ∈ todo) :
    AllInv N (todo.erase j) cnt res
      (if rn.state = PromiseStates.Rejected then rn else { rn with state := .Rejected, reason := r })
      ((rejectN 20 h j r).1) := by
  obtain ⟨hj, hinp, hch⟩ := inv.slots j hjt
  rw [show (20 : Nat) = 14 + 6 from rfl,
    reject_step 14 N j cnt res rn r h inv.len hj hinp hch inv.aggs inv.root inv.rootF inv.rootR inv.rootC]
  by_cases hrj : rn.state = PromiseStates.Rejected
  · rw [if_pos hrj, if_pos hrj]
    simp only []
    refine ⟨?_, ?_, ?_, inv.rootF, inv.rootR, inv.rootC, ?_⟩
    · rw [nodes_length_setNode, nodes_length_setNode, nodes_length_setNode, inv.len]
    · rw [aggs_setNode, aggs_setNode, aggs_setNode, inv.aggs]
    · rw [getNode_setNode_ne _ _ (by omega : N + 1 + j ≠ N),
        getNode_setNode_ne _ _ (by omega : N + 1 + j ≠ N),
        getNode_setNode_ne _ _ (by omega : j ≠ N)]
      exact inv.root
    · intro i hi
      obtain ⟨hij, hit⟩ := hnd.mem_erase_iff.mp hi
      obtain ⟨hiN, hiInp, hiCh⟩ := inv.slots i hit
      refine ⟨hiN, ?_, ?_⟩
      · rw [getNode_setNode_ne _ _ (by omega : N + 1 + j ≠ i),
          getNode_setNode_ne _ _ (by omega : N + 1 + j ≠ i),
          getNode_setNode_ne _ _ (by omega : j ≠ i)]
        exact hiInp
      · rw [getNode_setNode_ne _ _ (by omega : N + 1 + j ≠ N + 1 + i),
          getNode_setNode_ne _ _ (by omega : N + 1 + j ≠ N + 1 + i),
          getNode_setNode_ne _ _ (by omega : j ≠ N + 1 + i)]
        exact hiCh
  · rw [if_neg hrj, if_neg hrj]
    simp only []
    refine ⟨?_, ?_, ?_, inv.rootF, inv.rootR, inv.rootC, ?_⟩
    · rw [nodes_length_setNode, nodes_length_setNode, nodes_length_setNode,
        nodes_length_setNode, inv.len]
    · rw [aggs_setNode, aggs_setNode, aggs_setNode, aggs_setNode, inv.aggs]
    · rw [getNode_setNode_ne _ _ (by omega : N + 1 + j ≠ N),
        getNode_setNode_self _ _ _
          (by rw [nodes_length_setNode, nodes_length_setNode, inv.len]; omega)]
    · intro i hi
      obtain ⟨hij, hit⟩ := hnd.mem_erase_iff.mp hi
      obtain ⟨hiN, hiInp, hiCh⟩ := inv.slots i hit
      refine ⟨hiN, ?_, ?_⟩
      · rw [getNode_setNode_ne _ _ (by omega : N + 1 + j ≠ i),
          getNode_setNode_ne _ _ (by omega : N ≠ i),
          getNode_setNode_ne _ _ (by omega : N + 1 + j ≠ i),
          getNode_setNode_ne _ _ (by omega : j ≠ i)]
        exact hiInp
      · rw [getNode_setNode_ne _ _ (by omega : N + 1 + j ≠ N + 1 + i),
          getNode_setNode_ne _ _ (by omega : N ≠ N + 1 + i),
          getNode_setNode_ne _ _ (by omega : N + 1 + j ≠ N + 1 + i),
          getNode_setNode_ne _ _ (by omega : j ≠ N + 1 + i)]
        exact hiCh

/-- Running a list of fulfillment events on distinct still-registered
inputs, without reaching the completion target, preserves the `all`
invariant: the count advances by the number of events, the results array
accumulates the values by index, and the root node is untouched. -/
theorem allInv_fulfill_run (N : Nat) : ∀ (ps : List (Nat × Val)) (todo : List Nat) (cnt : Nat)
    (res : List (Option Val)) (rn : Node) (h : Heap),
    AllInv N todo cnt res rn h → todo.Nodup →
    (∀ p ∈ ps, p.1 ∈ todo) → (ps.map Prod.fst).Nodup →
    cnt + ps.length < N →
    ∃ todo', AllInv N todo' (cnt + ps.length) (ps.foldl (fun t p => setAt t p.1 p.2) res) rn
        (applyEvs 20 h (ps.map (fun p => Ev.fulfill p.1 p.2))) ∧
      todo'.Nodup ∧ todo'.length + ps.length = todo.length ∧
      (∀ i, i ∈ todo' ↔ i ∈ todo ∧ i ∉ ps.map Prod.fst)
  | [], todo, cnt, res, rn, h, inv, hnd, _, _, _ =>
    ⟨todo, by simpa using inv, hnd, by simp, fun i => by simp⟩
  | (j, v) :: ps, todo, cnt, res, rn, h, inv, hnd, hmem, hndp, hbound => by
    rw [List.map_cons] at hndp
    have hjt : j ∈ todo := hmem (j, v) (List.mem_cons_self _ _)
    have inv2 := allInv_fulfill_step N j cnt v todo res rn h inv hnd hjt (by
      simp at hbound; omega)
    have hnd2 : (todo.erase j).Nodup := hnd.erase j
    have hmem2 : ∀ p ∈ ps, p.1 ∈ todo.erase j := by
      intro p hp
      refine hnd.mem_erase_iff.mpr ⟨?_, hmem p (List.mem_cons_of_mem _ hp)⟩
      have hjn := (List.nodup_cons.mp hndp).1
      intro hc
      exact hjn (List.mem_map.mpr ⟨p, hp, hc⟩)
    have hndp2 : (ps.map Prod.fst).Nodup := (List.nodup_cons.mp hndp).2
    have hbound2 : (cnt + 1) + ps.length < N := by simp at hbound; omega
    obtain ⟨todo', hinv', hnd', hlen', hiff'⟩ :=
      allInv_fulfill_run N ps (todo.erase j) (cnt + 1) (setAt res j v) rn
        ((resolveN 20 h j v).1) inv2 hnd2 hmem2 hndp2 hbound2
    refine ⟨todo', ?_, hnd', ?_, ?_⟩
    · have e : cnt + ((j, v) :: ps).length = (cnt + 1) + ps.length := by simp; omega
      rw [e]
      simpa using hinv'
    · have := List.length_erase_of_mem hjt
      have h1 : 1 ≤ todo.length := List.length_pos_of_mem hjt
      simp at hlen' ⊢
      omega
    · intro i
      rw [hiff' i, hnd.mem_erase_iff]
      simp only [List.map_cons, List.mem_cons]
      constructor
      · rintro ⟨⟨hij, hit⟩, hnp⟩
        exact ⟨hit, fun hc => hc.elim (fun he => hij he) hnp⟩
      · rintro ⟨hit, hnp⟩
        exact ⟨⟨fun he => hnp (Or.inl he), hit⟩, fun hc => hnp (Or.inr hc)⟩

/-- Once the root of an `all` run is Rejected, any further settlement
events on distinct still-registered inputs (fulfillments or rejections)
leave the root node untouched, as long as the completion count cannot
reach the target. -/
theorem allInv_rejected_run (N : Nat) : ∀ (evs : List Ev) (todo : List Nat) (cnt : Nat)
    (res : List (Option Val)) (rn : Node) (h : Heap),
    AllInv N todo cnt res rn h → todo.Nodup →
    rn.state = PromiseStates.Rejected →
    (∀ e ∈ evs, evIndex e ∈ todo) → (evs.map evIndex).Nodup →
    cnt + todo.length < N →
    ∃ todo' cnt' res', AllInv N todo' cnt' res' rn (applyEvs 20 h evs) ∧
      todo'.Nodup ∧ cnt' + todo'.length < N
  | [], todo, cnt, res, rn, h, inv, hnd, _, _, _, hb => ⟨todo, cnt, res, inv, hnd, hb⟩
  | e :: evs, todo, cnt, res, rn, h, inv, hnd, hrej, hmem, hndp, hb => by
    rw [List.map_cons] at hndp
    have hjt : evIndex e ∈ todo := hmem e (List.mem_cons_self _ _)
    have h1 : 1 ≤ todo.length := List.length_pos_of_mem hjt
    have hle : (todo.erase (evIndex e)).length = todo.length - 1 :=
      List.length_erase_of_mem hjt
    have hnd2 : (todo.erase (evIndex e)).Nodup := hnd.erase _
    have hmem2 : ∀ x ∈ evs, evIndex x ∈ todo.erase (evIndex e) := by
      intro x hx
      refine hnd.mem_erase_iff.mpr ⟨?_, hmem x (List.mem_cons_of_mem _ hx)⟩
      have hen := (List.nodup_cons.mp hndp).1
      intro hc
      exact hen (List.mem_map.mpr ⟨x, hx, hc⟩)
    have hndp2 : (evs.map evIndex).Nodup := (List.nodup_cons.mp hndp).2
    match e with
    | Ev.fulfill j v =>
      have inv2 := allInv_fulfill_step N j cnt v todo res rn h inv hnd hjt (by
        simp only [evIndex] at hle h1 hjt
        omega)
      obtain ⟨todo', cnt', res', hinv', hnd', hb'⟩ :=
        allInv_rejected_run N evs (todo.erase j) (cnt + 1) (setAt res j v) rn
          ((resolveN 20 h j v).1) inv2 (by simpa [evIndex] using hnd2) hrej
          (by simpa [evIndex] using hmem2) hndp2
          (by simp only [evIndex] at hle; omega)
      exact ⟨todo', cnt', res', hinv', hnd', hb'⟩
    | Ev.rejectE j r =>
      have inv2 := allInv_reject_step N j cnt r todo res rn h inv hnd hjt
      rw [if_pos hrej] at inv2
      obtain ⟨todo', cnt', res', hinv', hnd', hb'⟩ :=
        allInv_rejected_run N evs (todo.erase j) cnt res rn
          ((rejectN 20 h j r).1) inv2 (by simpa [evIndex] using hnd2) hrej
          (by simpa [evIndex] using hmem2) hndp2
          (by simp only [evIndex] at hle; omega)
      exact ⟨todo', cnt', res', hinv', hnd', hb'⟩


theorem applyEvs_append (f : Nat) (h : Heap) (l1 l2 : List Ev) :
    applyEvs f h (l1 ++ l2) = applyEvs f (applyEvs f h l1) l2 := by
  induction l1 generalizing h with
  | nil => rfl
  | cons e es ih =>
    rw [List.cons_append]
    simp only [applyEvs]
    exact ih (applyEv f h e)

/-- C3: first failure wins in `all`.  Starting from `all` applied to `N`
fresh pending inputs, after any sequence of fulfillment events on
distinct inputs, a rejection of input `k` with reason `r`, and any
further settlement events on distinct remaining inputs, the root promise
is Rejected with reason `r`: the first rejection settles the root, and no
later fulfillment or rejection changes its state or reason. -/
theorem C3_first_failure_wins (N k : Nat) (r : Val) (pre : List (Nat × Val)) (post : List Ev)
    (hk : k < N)
    (hpre : ∀ p ∈ pre, p.1 < N)
    (hpost : ∀ e ∈ post, evIndex e < N)
    (hnd : (pre.map Prod.fst ++ k :: post.map evIndex).Nodup) :
    (getNode (applyEvs 20 (allSetup N).1
        (pre.map (fun p => Ev.fulfill p.1 p.2) ++ Ev.rejectE k r :: post)) N).state
        = PromiseStates.Rejected ∧
    reasonN (applyEvs 20 (allSetup N).1
        (pre.map (fun p => Ev.fulfill p.1 p.2) ++ Ev.rejectE k r :: post)) N = Except.ok r := by
  obtain ⟨h0, hset, inv0⟩ := allSetup_spec N
  have hndpre : (pre.map Prod.fst).Nodup := hnd.of_append_left
  have hndk : (k :: post.map evIndex).Nodup := hnd.of_append_right
  have hdisj : List.Disjoint (pre.map Prod.fst) (k :: post.map evIndex) :=
    List.disjoint_of_nodup_append hnd
  have hkpre : k ∉ pre.map Prod.fst := fun hc => hdisj hc (List.mem_cons_self _ _)
  have hndpost : (post.map evIndex).Nodup := (List.nodup_cons.mp hndk).2
  have hkpost : k ∉ post.map evIndex := (List.nodup_cons.mp hndk).1
  have hpk : (pre.map Prod.fst ++ [k]).Nodup := by
    rw [List.nodup_append]
    refine ⟨hndpre, List.nodup_singleton k, ?_⟩
    intro a h1 h2
    rw [List.mem_singleton] at h2
    exact hkpre (h2 ▸ h1)
  have hsub : (pre.map Prod.fst ++ [k]) ⊆ List.range N := by
    intro x hx
    rcases List.mem_append.mp hx with hm | hm
    · obtain ⟨p, hp, rfl⟩ := List.mem_map.mp hm
      exact List.mem_range.mpr (hpre p hp)
    · rw [List.mem_singleton] at hm
      exact List.mem_range.mpr (hm ▸ hk)
  have hlenpre : pre.length + 1 ≤ N := by
    have := (hpk.subperm hsub).length_le
    simpa using this
  have hboundA : 0 + pre.length < N := by omega
  obtain ⟨todo1, inv1, hnd1, hlen1, hiff1⟩ :=
    allInv_fulfill_run N pre (List.range N) 0 [] {} h0 inv0 (List.nodup_range N)
      (fun p hp => List.mem_range.mpr (hpre p hp)) hndpre hboundA
  have hkt : k ∈ todo1 := (hiff1 k).mpr ⟨List.mem_range.mpr hk, hkpre⟩
  have inv2 := allInv_reject_step N k (0 + pre.length) r todo1
    (pre.foldl (fun t p => setAt t p.1 p.2) []) {} _ inv1 hnd1 hkt
  rw [if_neg (by decide)] at inv2
  have hboundB : (0 + pre.length) + (todo1.erase k).length < N := by
    have hle := List.length_erase_of_mem hkt
    have h1 := List.length_pos_of_mem hkt
    simp at hlen1
    omega
  obtain ⟨todo', cnt', res', invF, _, _⟩ :=
    allInv_rejected_run N post (todo1.erase k) (0 + pre.length)
      (pre.foldl (fun t p => setAt t p.1 p.2) []) _ _ inv2 (hnd1.erase k) rfl
      (fun e he => hnd1.mem_erase_iff.mpr
        ⟨fun hc => hkpost (hc ▸ List.mem_map.mpr ⟨e, he, rfl⟩),
         (hiff1 (evIndex e)).mpr ⟨List.mem_range.mpr (hpost e he),
           fun hc => hdisj hc (List.mem_cons_of_mem _ (List.mem_map.mpr ⟨e, he, rfl⟩))⟩⟩)
      hndpost hboundB
  have hfin : applyEvs 20 (allSetup N).1
      (pre.map (fun p => Ev.fulfill p.1 p.2) ++ Ev.rejectE k r :: post) =
      applyEvs 20 ((rejectN 20 (applyEvs 20 h0 (pre.map (fun p => Ev.fulfill p.1 p.2))) k r).1)
        post := by
    rw [hset, applyEvs_append]
    rfl
  rw [hfin]
  refine ⟨?_, ?_⟩
  · rw [invF.root]
  · rw [reasonN, invF.root, if_pos rfl]


theorem C3_witness :
    (getNode (applyEvs 20 (allSetup 3).1
        ([((0 : Nat), Val.vnum 1)].map (fun p => Ev.fulfill p.1 p.2) ++
          Ev.rejectE 1 (Val.vstr "boom") :: [Ev.fulfill 2 (Val.vnum 3)])) 3).state
        = PromiseStates.Rejected ∧
    reasonN (applyEvs 20 (allSetup 3).1
        ([((0 : Nat), Val.vnum 1)].map (fun p => Ev.fulfill p.1 p.2) ++
          Ev.rejectE 1 (Val.vstr "boom") :: [Ev.fulfill 2 (Val.vnum 3)])) 3
        = Except.ok (Val.vstr "boom") :=
  C3_first_failure_wins 3 1 (Val.vstr "boom") [((0 : Nat), Val.vnum 1)]
    [Ev.fulfill 2 (Val.vnum 3)] (by decide) (by decide) (by decide) (by decide)


theorem getAt_foldl_setAt_mem (vals : Nat → Val) : ∀ (l : List Nat) (res : List (Option Val)),
    (∀ i, i ∉ l →
      getAt ((l.map (fun i => (i, vals i))).foldl (fun t p => setAt t p.1 p.2) res) i = getAt res i) ∧
    (∀ i, i ∈ l →
      getAt ((l.map (fun i => (i, vals i))).foldl (fun t p => setAt t p.1 p.2) res) i = some (vals i))
  | [], res => ⟨fun _ _ => rfl, fun i hi => absurd hi (List.not_mem_nil i)⟩
  | a :: l, res => by
    constructor
    · intro i hi
      rw [List.map_cons, List.foldl_cons]
      rw [(getAt_foldl_setAt_mem vals l (setAt res a (vals a))).1 i
        (fun hc => hi (List.mem_cons_of_mem _ hc))]
      exact getAt_setAt_ne res (vals a) (fun hc => hi (by rw [hc]; exact List.mem_cons_self a l))
    · intro i hi
      rw [List.map_cons, List.foldl_cons]
      by_cases hil : i ∈ l
      · exact (getAt_foldl_setAt_mem vals l (setAt res a (vals a))).2 i hil
      · have hia : i = a := by
          rcases List.mem_cons.mp hi with hx | hx
          · exact hx
          · exact absurd hx hil
        subst hia
        rw [(getAt_foldl_setAt_mem vals l (setAt res i (vals i))).1 i hil]
        exact getAt_setAt_self res i (vals i)

theorem length_foldl_setAt (N : Nat) (vals : Nat → Val) : ∀ (l : List Nat) (res : List (Option Val)),
    (∀ i ∈ l, i < N) → res.length ≤ N →
    ((l.map (fun i => (i, vals i))).foldl (fun t p => setAt t p.1 p.2) res).length ≤ N
  | [], _, _, hr => hr
  | a :: l, res, hl, hr => by
    rw [List.map_cons, List.foldl_cons]
    refine length_foldl_setAt N vals l _ (fun i hi => hl i (List.mem_cons_of_mem _ hi)) ?_
    rw [length_setAt]
    have := hl a (List.mem_cons_self a l)
    split <;> omega

theorem foldl_setAt_complete (N : Nat) (vals : Nat → Val) (init : List Nat) (j : Nat)
    (hN : 1 ≤ N) (hjN : j < N)
    (hmo : ∀ i, i ∈ init ++ [j] ↔ i < N) :
    setAt ((init.map (fun i => (i, vals i))).foldl (fun t p => setAt t p.1 p.2) []) j (vals j)
      = (List.range N).map (fun i => some (vals i)) := by
  have hleq : ((init.map (fun i => (i, vals i))).foldl (fun t p => setAt t p.1 p.2) []).length ≤ N :=
    length_foldl_setAt N vals init []
      (fun i hi => (hmo i).mp (List.mem_append.mpr (Or.inl hi))) (by simp)
  have hfinlen : (setAt ((init.map (fun i => (i, vals i))).foldl (fun t p => setAt t p.1 p.2) [])
      j (vals j)).length ≤ N := by
    rw [length_setAt]
    split <;> omega
  have hget : ∀ i, i < N →
      getAt (setAt ((init.map (fun i => (i, vals i))).foldl (fun t p => setAt t p.1 p.2) [])
        j (vals j)) i = some (vals i) := by
    intro i hi
    by_cases hij : i = j
    · subst hij
      exact getAt_setAt_self _ _ _
    · rw [getAt_setAt_ne _ _ hij]
      have hiI : i ∈ init := by
        rcases List.mem_append.mp ((hmo i).mpr hi) with hm | hm
        · exact hm
        · rw [List.mem_singleton] at hm
          exact absurd hm hij
      exact (getAt_foldl_setAt_mem vals init []).2 i hiI
  have hlenN : (setAt ((init.map (fun i => (i, vals i))).foldl (fun t p => setAt t p.1 p.2) [])
      j (vals j)).length = N := by
    by_contra hne
    have hlast := getAt_of_length_le
      (setAt ((init.map (fun i => (i, vals i))).foldl (fun t p => setAt t p.1 p.2) []) j (vals j))
      (show (setAt ((init.map (fun i => (i, vals i))).foldl (fun t p => setAt t p.1 p.2) [])
        j (vals j)).length ≤ N - 1 by omega)
    rw [hget (N - 1) (by omega)] at hlast
    simp at hlast
  apply List.ext_getElem
  · rw [hlenN, List.length_map, List.length_range]
  · intro i hi1 hi2
    have hiN : i < N := by rwa [hlenN] at hi1
    have hg := hget i hiN
    rw [getAt, List.getD_eq_getElem?_getD, List.getElem?_eq_getElem hi1, Option.getD_some] at hg
    rw [hg, List.getElem_map, List.getElem_range]

/-- C7 (amended to runs with at least one input): when `all` is applied
to `N ≥ 1` fresh pending inputs and every input fulfills, in any
completion order, the root promise settles Fulfilled and `value()`
returns the array whose slot `i` holds input `i`'s value, in input index
order regardless of completion order. -/
theorem C7_order_preserved (N : Nat) (vals : Nat → Val) (order : List Nat)
    (hN : 1 ≤ N) (hperm : order.Perm (List.range N)) :
    (getNode (applyEvs 20 (allSetup N).1 (order.map (fun i => Ev.fulfill i (vals i)))) N).state
      = PromiseStates.Fulfilled ∧
    valueN (applyEvs 20 (allSetup N).1 (order.map (fun i => Ev.fulfill i (vals i)))) N
      = Except.ok (Val.varr ((List.range N).map vals)) := by
  obtain ⟨h0, hset, inv0⟩ := allSetup_spec N
  have hndo : order.Nodup := hperm.nodup_iff.mpr (List.nodup_range N)
  have hlo : order.length = N := by rw [hperm.length_eq, List.length_range]
  have hmo : ∀ i, i ∈ order ↔ i < N := fun i => by rw [hperm.mem_iff, List.mem_range]
  rcases List.eq_nil_or_concat order with hnil | ⟨init, j, rfl⟩
  · rw [hnil] at hlo
    simp at hlo
    omega
  rw [List.concat_eq_append] at hndo hlo hmo ⊢
  have hndi : init.Nodup := hndo.of_append_left
  have hji : j ∉ init :=
    fun hc => (List.disjoint_of_nodup_append hndo) hc (List.mem_singleton_self j)
  have hinit : init.length + 1 = N := by
    rw [List.length_append] at hlo
    simpa using hlo
  have hjN : j < N := (hmo j).mp (List.mem_append.mpr (Or.inr (List.mem_singleton_self j)))
  have hps : (init.map (fun i => (i, vals i))).map Prod.fst = init := by
    rw [List.map_map]
    show List.map id init = init
    exact List.map_id init
  obtain ⟨todo1, inv1, hnd1, hlen1, hiff1⟩ :=
    allInv_fulfill_run N (init.map (fun i => (i, vals i))) (List.range N) 0 [] {} h0 inv0
      (List.nodup_range N)
      (fun p hp => by
        obtain ⟨i, hi, rfl⟩ := List.mem_map.mp hp
        exact List.mem_range.mpr ((hmo i).mp (List.mem_append.mpr (Or.inl hi))))
      (by rw [hps]; exact hndi)
      (by simp only [List.length_map]; omega)
  have hjt : j ∈ todo1 := (hiff1 j).mpr ⟨List.mem_range.mpr hjN, by rw [hps]; exact hji⟩
  obtain ⟨-, hinp, hch⟩ := inv1.slots j hjt
  set h1 := applyEvs 20 h0
    ((init.map (fun i => (i, vals i))).map (fun p => Ev.fulfill p.1 p.2)) with hh1
  have hstep := fulfill_step 14 N j (0 + (init.map (fun i => (i, vals i))).length)
    ((init.map (fun i => (i, vals i))).foldl (fun t p => setAt t p.1 p.2) []) {} (vals j) h1
    inv1.len hjN hinp hch inv1.aggs inv1.root inv1.rootF inv1.rootC
  rw [if_pos (by simp only [List.length_map]; omega)] at hstep
  have hfin : applyEvs 20 (allSetup N).1 ((init ++ [j]).map (fun i => Ev.fulfill i (vals i))) =
      (resolveN 20 h1 j (vals j)).1 := by
    rw [hset]
    simp only []
    rw [List.map_append, applyEvs_append]
    rw [show init.map (fun i => Ev.fulfill i (vals i)) =
      (init.map (fun i => (i, vals i))).map (fun p => Ev.fulfill p.1 p.2) by
        rw [List.map_map]; rfl]
    rfl
  rw [hfin, show (20 : Nat) = 14 + 6 from rfl, hstep]
  simp only []
  have hres := foldl_setAt_complete N vals init j hN hjN hmo
  rw [hres]
  have harr : arrOf ((List.range N).map (fun i => some (vals i)))
      = Val.varr ((List.range N).map vals) := by
    rw [arrOf, List.map_map]
    rfl
  constructor
  · rw [getNode_setNode_self _ _ _
      (by rw [nodes_length_setAgg, nodes_length_setNode, nodes_length_setNode, inv1.len]; omega)]
  · simp only [valueN]
    rw [getNode_setNode_self _ _ _
      (by rw [nodes_length_setAgg, nodes_length_setNode, nodes_length_setNode, inv1.len]; omega)]
    rw [if_pos rfl]
    rw [harr]


/-- C7 counterexample: with `N = 0` inputs every input vacuously
fulfills (the completion sequence is empty), yet the root promise of
`all` never settles Fulfilled - it stays Pending forever, because the
completion check only runs inside a per-input continuation and there are
no inputs.  The claim's universal quantification over `N` fails at
`N = 0`. -/
theorem C7_counterexample :
    (getNode (applyEvs 20 (allSetup 0).1
        (([] : List Nat).map (fun i => Ev.fulfill i (Val.vnum 0)))) 0).state
      ≠ PromiseStates.Fulfilled ∧
    (getNode (applyEvs 20 (allSetup 0).1
        (([] : List Nat).map (fun i => Ev.fulfill i (Val.vnum 0)))) 0).state
      = PromiseStates.Pending := by
  decide

theorem C7_witness :
    (getNode (applyEvs 20 (allSetup 3).1
        ([2, 0, 1].map (fun i => Ev.fulfill i (Val.vnum (i + 1))))) 3).state
      = PromiseStates.Fulfilled ∧
    valueN (applyEvs 20 (allSetup 3).1
        ([2, 0, 1].map (fun i => Ev.fulfill i (Val.vnum (i + 1))))) 3
      = Except.ok (Val.varr ((List.range 3).map (fun i => Val.vnum (i + 1)))) :=
  C7_order_preserved 3 (fun i => Val.vnum (i + 1)) [2, 0, 1] (by decide) (by decide)


end BabylonPromise
